import Mathlib

/-!
# Verification of the Clarus workbook metrics engine

Shallow embedding of the period-metrics extraction and aggregation engine of
the Clarus repository (`backend/routes/metrics_routes.py`,
`backend/routes/excel_routes.py`, `backend/models.py`) together with proofs
about the claims of its specification.

Modelling conventions:
* Python `datetime.date` / `datetime.datetime` values are modelled either as
  civil triples `CalDate` (year, month, day) ordered chronologically
  (lexicographically — identical to Python's ordering on valid dates), or,
  where the code does day arithmetic, as ordinal day counts (`ℤ`, the number
  of days since 0000-03-01 of the proleptic Gregorian calendar, as in the
  standard civil-from-days algorithm that CPython's `date.toordinal`
  agrees with up to a constant shift).
* Python floats are modelled as exact rationals `ℚ` (the claims under test
  are about the formulas, not rounding); `float('nan')` results are
  modelled as `Option.none`.
* Fallible parsing returns `Option`; Python code that swallows exceptions is
  modelled by the corresponding `none`/identity branch.
-/

namespace Clarus

/-! ## Calendar dates

`CalDate` models a Python `datetime.date` as a civil (year, month, day)
triple.  Chronological comparison of valid dates coincides with
lexicographic comparison of the triples. -/

structure CalDate where
  year : ℤ
  month : ℕ
  day : ℕ
deriving DecidableEq, Repr

/-- Chronological (lexicographic) order on civil dates, matching Python's
`date.__le__` on valid dates. -/
def dateLe (a b : CalDate) : Prop :=
  a.year < b.year ∨ (a.year = b.year ∧
    (a.month < b.month ∨ (a.month = b.month ∧ a.day ≤ b.day)))

/-- Strict chronological order on civil dates. -/
def dateLt (a b : CalDate) : Prop :=
  a.year < b.year ∨ (a.year = b.year ∧
    (a.month < b.month ∨ (a.month = b.month ∧ a.day < b.day)))

instance (a b : CalDate) : Decidable (dateLe a b) := by unfold dateLe; infer_instance

instance (a b : CalDate) : Decidable (dateLt a b) := by unfold dateLt; infer_instance

/-- Gregorian leap-year test (`calendar.isleap`). -/
def isLeapYear (y : ℤ) : Bool :=
  y % 4 = 0 && (y % 100 ≠ 0 || y % 400 = 0)

/-- Number of days of month `m` of year `y` (`calendar.monthrange(y, m)[1]`). -/
def daysInMonth (y : ℤ) (m : ℕ) : ℕ :=
  if m = 2 then (if isLeapYear y then 29 else 28)
  else if m = 4 ∨ m = 6 ∨ m = 9 ∨ m = 11 then 30
  else 31

/-- Days-from-civil conversion (the standard era-based algorithm; the value
is the ordinal that CPython's `date.toordinal` computes, shifted so that
0000-03-01 is day 0).  Only ever used in the forward direction, to model the
day arithmetic of `timedelta`. -/
def dateToDays (d : CalDate) : ℤ :=
  let y' : ℤ := if d.month ≤ 2 then d.year - 1 else d.year
  let era : ℤ := y'.fdiv 400
  let yoe : ℕ := (y' - era * 400).toNat
  let mp : ℕ := (d.month + 9) % 12
  let doy : ℕ := (153 * mp + 2) / 5 + d.day - 1
  let doe : ℕ := yoe * 365 + yoe / 4 - yoe / 100 + doy
  era * 146097 + (doe : ℤ)

/-- Civil-from-days conversion (inverse direction of the same algorithm),
used to model building a Python `date` from ordinal arithmetic such as
`datetime(1899, 12, 30) + timedelta(days=n)`. -/
def daysToDate (z : ℤ) : CalDate :=
  let era : ℤ := z.fdiv 146097
  let doe : ℕ := (z - era * 146097).toNat
  let yoe : ℕ := (doe - doe / 1460 + doe / 36524 - doe / 146096) / 400
  let y : ℤ := (yoe : ℤ) + era * 400
  let doy : ℕ := doe - (365 * yoe + yoe / 4 - yoe / 100)
  let mp : ℕ := (5 * doy + 2) / 153
  let d : ℕ := doy - (153 * mp + 2) / 5 + 1
  let m : ℕ := if mp < 10 then mp + 3 else mp - 9
  { year := if m ≤ 2 then y + 1 else y, month := m, day := d }

/-- The day difference `(b - a).days` between two Python dates. -/
def dateDiffDays (b a : CalDate) : ℤ := dateToDays b - dateToDays a

/-! ## Excel serial dates (`Date Parser`)

`_maybe_excel_serial` (excel_routes.py) and the numeric branch of
`_parse_excel_date` (metrics_routes.py): a numeric cell value strictly
between 20000 and 90000 is a 1900-epoch Excel serial, anchored at
1899-12-30.  The result is modelled as an ordinal day count. -/

/-- Ordinal day number of the Excel 1900-epoch anchor 1899-12-30. -/
def excelEpoch : ℤ := dateToDays ⟨1899, 12, 30⟩

/-- `_maybe_excel_serial(v)` (excel_routes.py lines 73–81): `float(v)` in the
open interval (20000, 90000) yields `date(1899,12,30) + int(v) days`, here as
the ordinal day number of that date; `int` truncation on a positive float is
`Int.floor`. -/
def maybe_excel_serial (q : ℚ) : Option ℤ :=
  if 20000 < q ∧ q < 90000 then some (excelEpoch + ⌊q⌋) else none

/-- Calendar-date part of `_parse_excel_date(val)` for numeric input
(metrics_routes.py lines 334–339): `datetime(1899,12,30) +
timedelta(days=float(val))` has calendar date `1899-12-30 + ⌊val⌋ days`
(the fractional part only contributes a time of day). -/
def parse_excel_date_num (q : ℚ) : Option ℤ :=
  if 20000 < q ∧ q < 90000 then some (excelEpoch + ⌊q⌋) else none

/-- Whole days from the Excel epoch back to a parsed date (the `to_serial`
direction of the specification's round-trip property). -/
def toSerial (d : ℤ) : ℤ := d - excelEpoch

/-! ## Text normalization and numeric-cell parsing

`_clean_txt` (both route files): collapse whitespace runs, strip, lowercase.
`_to_float` / `_to_float_cell`: money-string parsing with `,`/`$` stripping
and `(x)` as negation, `nan` (here `none`) for blanks and dashes. -/

/-- Characters treated as whitespace by Python's `\s` (including the
non-breaking space that `_clean_txt` folds to a plain space). -/
def isPySpace (c : Char) : Bool :=
  c = ' ' || c = '\t' || c = '\n' || c = '\r' || c = '\x0b' || c = '\x0c' || c = ' '

/-- Split a character list at every character satisfying `p` (the splitter
underlying Python's `re.split`/`str.split`; empty segments are kept). -/
def splitPred (p : Char → Bool) (l : List Char) : List (List Char) :=
  l.foldr (fun x acc => if p x then [] :: acc else (x :: acc.headD []) :: acc.tail) [[]]

/-- Python `str.strip()`. -/
def pyStrip (s : String) : String :=
  String.mk ((s.data.dropWhile isPySpace).reverse.dropWhile isPySpace).reverse

/-- Join words with single spaces. -/
def joinWords : List (List Char) → List Char
  | [] => []
  | [w] => w
  | w :: ws => w ++ ' ' :: joinWords ws

/-- `_clean_txt(x)`: collapse whitespace runs to single spaces, strip the
ends, lowercase.  (The metrics-routes variant folds the non-breaking space
and then does the same normalization.) -/
def cleanTxt (s : String) : String :=
  String.mk ((joinWords ((splitPred isPySpace s.data).filter (· ≠ []))).map Char.toLower)

/-- Value of a digit string read in base 10. -/
def digitsVal (l : List Char) : ℕ :=
  l.foldl (fun a c => a * 10 + (c.toNat - '0'.toNat)) 0

/-- Python `int(s)` on an unsigned digit string. -/
def digitsToNat? (l : List Char) : Option ℕ :=
  if l ≠ [] ∧ l.all Char.isDigit then some (digitsVal l) else none

/-- Unsigned Python float literal `digits[.digits]` / `.digits` / `digits.`
(the decimal forms; exponent/inf/nan forms never occur in the sheets this
engine parses and are modelled as unparseable). -/
def parseUnsignedFloat (s : String) : Option ℚ :=
  match splitPred (fun c => c = '.') s.data with
  | [a] =>
    if a ≠ [] ∧ a.all Char.isDigit then some (digitsVal a : ℚ) else none
  | [a, b] =>
    if (a ≠ [] ∨ b ≠ []) ∧ a.all Char.isDigit ∧ b.all Char.isDigit then
      some ((digitsVal a : ℚ) + (digitsVal b : ℚ) / ((10 : ℚ) ^ b.length))
    else none
  | _ => none

/-- Python `float(s)` on a sign-prefixed decimal literal. -/
def parseFloatLit (s : String) : Option ℚ :=
  match s.data with
  | '-' :: rest => (parseUnsignedFloat (String.mk rest)).map Neg.neg
  | '+' :: rest => parseUnsignedFloat (String.mk rest)
  | _ => parseUnsignedFloat s

/-- Body of `_to_float` / `_to_float_cell` for string input: strip, remove
`,` and `$`, `(x)` → `-x`, then `float`. -/
def toFloatStr (s : String) : Option ℚ :=
  let t := String.mk ((pyStrip s).data.filter (fun c => c ≠ ',' && c ≠ '$'))
  if t.data.head? = some '(' ∧ t.data.getLast? = some ')' then
    parseFloatLit (String.mk ('-' :: (t.data.drop 1).dropLast))
  else parseFloatLit t

/-! ## Cells and grids

A raw worksheet cell.  `date` models both native date/datetime cells and
string cells that the engine's date-format lists parse (the engine treats
the two identically once parsed); `str` models every other string.  For
non-string cells the engine only ever observes that `str(v)` is a non-empty
text that matches neither the forbidden-row tokens nor any metric-label
alias, so their text is modelled by fixed placeholder tags. -/

inductive Cell where
  | empty
  | str (s : String)
  | num (q : ℚ)
  | date (d : CalDate)
deriving DecidableEq, Repr

/-- `_clean_txt(str(v))` of a cell (empty string for `None`). -/
def cellCleanTxt : Cell → String
  | .empty => ""
  | .str s => cleanTxt s
  | .num _ => "#num"
  | .date _ => "#date"

/-- `_to_float(v)` / `_to_float_cell(v)`: `nan` (none) for `None`, `""` and
bare dashes; numbers pass through (`float(str(v))` round-trips); date cells
never parse; other strings go through money-string parsing. -/
def toFloatCell : Cell → Option ℚ
  | .empty => none
  | .num q => some q
  | .date _ => none
  | .str s =>
    if s = "" ∨ pyStrip s = "—" ∨ pyStrip s = "-" ∨ pyStrip s = "–" then none
    else toFloatStr s

/-- Whether a cell is usable as an identifier: `isinstance(id_val, (int,
float)) or (isinstance(id_val, str) and id_val.strip())`. -/
def idNonempty : Cell → Bool
  | .num _ => true
  | .str s => pyStrip s ≠ ""
  | _ => false

/-- A grid of raw cell values; `grid.getD (r-1) []` is row `r` (1-based). -/
abbrev Grid := List (List Cell)

/-- The cell at 1-based row `r`, column `c` (missing cells are `None`). -/
def cellAt (values : Grid) (r c : ℕ) : Cell :=
  ((values.getD (r - 1) []).getD (c - 1) .empty)

/-! ## Financial Metrics Calculator (C1)

`_irr_from_span` (metrics_routes.py lines 557–568) and the MOIC/ROI block of
`_fast_overview` (lines 1045–1049).  Exact-rational model of the float
formulas; the CAGR power is real exponentiation. -/

/-- `_irr_from_span(initial, current, start, end)`: none when the initial
value is falsy or non-positive or the span is non-positive, else the
annualized two-point growth rate in percent.  (The call sites always pass
non-null dates and a float `current_value`.) -/
noncomputable def irr_from_span (initial current : ℚ) (startD endD : CalDate) : Option ℝ :=
  if initial = 0 ∨ initial ≤ 0 then none
  else if max ((dateDiffDays endD startD : ℚ) / 365.25) 0 ≤ 0 then none
  else some ((((current : ℝ) / (initial : ℝ)) ^
      ((1 : ℝ) / ((max ((dateDiffDays endD startD : ℚ) / 365.25) 0 : ℚ) : ℝ)) - 1) * 100)

/-- The `(moic, roi_pct, irr_pct)` triple computed by `_fast_overview`. -/
structure OverviewMetrics where
  moic : Option ℚ
  roi_pct : Option ℚ
  irr_pct : Option ℝ

/-- Lines 1045–1049 of `_fast_overview`: all three metrics are `None` unless
`initial_value` is truthy and nonzero, else `moic = current/initial`,
`roi_pct = (moic - 1) * 100`, `irr_pct = _irr_from_span(...)`. -/
noncomputable def fastOverviewMetrics (initial : Option ℚ) (current : ℚ)
    (startD endD : CalDate) : OverviewMetrics :=
  match initial with
  | none => ⟨none, none, none⟩
  | some i =>
    if i ≠ 0 then
      { moic := some (current / i)
        roi_pct := some ((current / i - 1) * 100)
        irr_pct := irr_from_span i current startD endD }
    else ⟨none, none, none⟩

/-! ## Period Store (C2, C6, C10)

`PortfolioPeriodMetric` (models.py lines 411–428) with its
`UniqueConstraint("sheet", "as_of_date")`, and the SQLite
`INSERT ... ON CONFLICT (sheet, as_of_date) DO UPDATE` statement built by
`_upsert_period_metric` (metrics_routes.py lines 1106–1129): on conflict the
five financial fields, `source` and `updated_at` are overwritten and
`created_at` is preserved; on insert both timestamps are the current time.
The store is modelled as the list of table rows in insertion order. -/

/-- The values carried by one upsert statement (the `VALUES` clause). -/
structure PeriodVals where
  sheet : String
  as_of_date : CalDate
  beginning_balance : Option ℚ
  ending_balance : Option ℚ
  unrealized_gain_loss : Option ℚ
  realized_gain_loss : Option ℚ
  management_fees : Option ℚ
  source : String
deriving DecidableEq, Repr

/-- One row of `portfolio_period_metrics`. -/
structure StoredRow where
  sheet : String
  as_of_date : CalDate
  beginning_balance : Option ℚ
  ending_balance : Option ℚ
  unrealized_gain_loss : Option ℚ
  realized_gain_loss : Option ℚ
  management_fees : Option ℚ
  source : String
  created_at : ℕ
  updated_at : ℕ
deriving DecidableEq, Repr

/-- Conflict test of the unique key `(sheet, as_of_date)`. -/
def sameKey (r : StoredRow) (v : PeriodVals) : Bool :=
  decide (r.sheet = v.sheet ∧ r.as_of_date = v.as_of_date)

/-- The `DO UPDATE SET` clause: financial fields, `source` and `updated_at`
from the excluded values; `created_at` (and the key) untouched. -/
def applyUpdate (r : StoredRow) (v : PeriodVals) (now : ℕ) : StoredRow :=
  { r with
    beginning_balance := v.beginning_balance
    ending_balance := v.ending_balance
    unrealized_gain_loss := v.unrealized_gain_loss
    realized_gain_loss := v.realized_gain_loss
    management_fees := v.management_fees
    source := v.source
    updated_at := now }

/-- A freshly inserted row: both timestamps default to the current time
(`created_at`/`updated_at` column defaults in models.py). -/
def insertRow (v : PeriodVals) (now : ℕ) : StoredRow :=
  { sheet := v.sheet
    as_of_date := v.as_of_date
    beginning_balance := v.beginning_balance
    ending_balance := v.ending_balance
    unrealized_gain_loss := v.unrealized_gain_loss
    realized_gain_loss := v.realized_gain_loss
    management_fees := v.management_fees
    source := v.source
    created_at := now
    updated_at := now }

/-- The atomic `INSERT ... ON CONFLICT DO UPDATE`. -/
def upsertRow (store : List StoredRow) (v : PeriodVals) (now : ℕ) : List StoredRow :=
  if store.any (fun r => sameKey r v) then
    store.map (fun r => if sameKey r v then applyUpdate r v now else r)
  else store ++ [insertRow v now]

/-- The table's uniqueness invariant: no two rows share `(sheet, as_of_date)`. -/
def KeyUnique (l : List StoredRow) : Prop :=
  l.Pairwise (fun a b => ¬(a.sheet = b.sheet ∧ a.as_of_date = b.as_of_date))

/-- Row lookup by the unique key. -/
def findRow (store : List StoredRow) (v : PeriodVals) : Option StoredRow :=
  store.find? (fun r => sameKey r v)

/-- A row with its volatile `updated_at` column cleared, for comparing
everything else. -/
def clearUpdated (r : StoredRow) : StoredRow := { r with updated_at := 0 }

/-! ## Carry-forward of missing beginnings (C3)

`ingest_from_sheet` lines 1916–1920 / `_ingest_local_admin_totals` lines
287–292: after aggregation, iterate `totals_by_date` in ascending key order;
whenever a month's `beginning` is null and earlier months exist, replace it
by the `ending` of `max(prevs)` — the chronologically nearest prior month.
The dict is modelled as an association list in ascending key order; the
already-visited prefix is the `done` accumulator, whose last entry is
`max(prevs)`. -/

/-- One aggregated month:
`dict(beginning=…, ending=…, unrealized=…, realized=…, fees=…)`. -/
structure MonthRec where
  beginning : Option ℚ
  ending : Option ℚ
  unrealized : Option ℚ
  realized : Option ℚ
  fees : Option ℚ
deriving DecidableEq, Repr

/-- The sequential pass: `done` is the processed, key-ascending prefix;
a null beginning is replaced by the ending of the last processed entry
(`totals_by_date[max(prevs)]["ending"]`). -/
def carryForwardGo (done : List (CalDate × MonthRec)) :
    List (CalDate × MonthRec) → List (CalDate × MonthRec)
  | [] => done
  | (d, m) :: rest =>
    let m' := if m.beginning = none then
        match done.getLast? with
        | some p => { m with beginning := p.2.ending }
        | none => m
      else m
    carryForwardGo (done ++ [(d, m')]) rest

/-- Carry-forward over all months of a sheet. -/
def carryForward (l : List (CalDate × MonthRec)) : List (CalDate × MonthRec) :=
  carryForwardGo [] l

/-- How one record is rewritten given the previous month's ending (if any). -/
def cfExpected (prev : Option (Option ℚ)) (m : MonthRec) : MonthRec :=
  if m.beginning = none then
    match prev with
    | some pe => { m with beginning := pe }
    | none => m
  else m

/-- Structural variant of the pass carrying only the previous ending. -/
def carryForwardSimple (prev : Option (Option ℚ)) :
    List (CalDate × MonthRec) → List (CalDate × MonthRec)
  | [] => []
  | (d, m) :: rest => (d, cfExpected prev m) :: carryForwardSimple (some m.ending) rest

/-! ## Persist-on-read (C6, C10)

`_upsert_period_metric(sheet_name, data)` (metrics_routes.py lines
1082–1132): parse `data["period_end"]` (`YYYY-MM` → month-end date, else
`datetime.fromisoformat`), bail out silently when it is missing or
unparseable or when `initial_value`/`current_value` is missing, else run the
conflict upsert.  Exceptions are caught and rolled back, i.e. every failure
path leaves the store unchanged. -/

/-- Python `s[a:b]` on character positions. -/
def strSlice (s : String) (a b : ℕ) : String :=
  String.mk ((s.data.drop a).take (b - a))

/-- `datetime.fromisoformat(s).date()` restricted to the dashed
`YYYY-MM-DD` date form (the only form the engine's callers produce;
`fromisoformat` validates month and day ranges and rejects plain `YYYY`). -/
def parseIsoDate (s : String) : Option CalDate :=
  match splitPred (fun c => c = '-') s.data with
  | [ys, ms, ds] =>
    if ys.length = 4 ∧ ms.length = 2 ∧ ds.length = 2 then
      match digitsToNat? ys, digitsToNat? ms, digitsToNat? ds with
      | some y, some m, some d =>
        if 1 ≤ m ∧ m ≤ 12 ∧ 1 ≤ d ∧ d ≤ daysInMonth (y : ℤ) m then
          some ⟨(y : ℤ), m, d⟩
        else none
      | _, _, _ => none
    else none
  | _ => none

/-- Lines 1090–1099: `YYYY-MM` becomes the last day of that month
(`31` hard-coded for December, `monthrange` otherwise; an out-of-range month
makes `monthrange`/`date` raise, which the surrounding `except` swallows);
anything else goes through `fromisoformat` unchanged. -/
def periodEndToAsOf (pe : String) : Option CalDate :=
  if pe.length = 7 ∧ pe.data.getD 4 ' ' = '-' then
    match digitsToNat? (strSlice pe 0 4).data, digitsToNat? (strSlice pe 5 7).data with
    | some y, some m =>
      if 1 ≤ m ∧ m ≤ 12 then
        some ⟨(y : ℤ), m, if m = 12 then 31 else daysInMonth (y : ℤ) m⟩
      else none
    | _, _ => none
  else parseIsoDate pe

/-- The overview result fields that `_upsert_period_metric` reads. -/
structure OverviewData where
  period_end : Option String
  initial_value : Option ℚ
  current_value : Option ℚ
  unrealized_gain_loss : Option ℚ
  realized_gain_loss : Option ℚ
  management_fees : Option ℚ
  source : Option String
deriving DecidableEq, Repr

/-- `_upsert_period_metric(sheet_name, data)` acting on the store. -/
def upsertPeriodMetric (store : List StoredRow) (sheetName : String)
    (data : OverviewData) (now : ℕ) : List StoredRow :=
  if pyStrip (data.period_end.getD "") = "" then store
  else
    match periodEndToAsOf (pyStrip (data.period_end.getD "")) with
    | none => store
    | some asOf =>
      match data.initial_value, data.current_value with
      | some iv, some cv =>
        upsertRow store
          ⟨sheetName, asOf, some iv, some cv, data.unrealized_gain_loss,
            data.realized_gain_loss, data.management_fees,
            (match data.source with
             | some s => if s = "" then "overview" else s
             | none => "overview")⟩ now
      | _, _ => store

/-- `me = date(dt.year, dt.month, monthrange(dt.year, dt.month)[1])` — the
as-of key both ingestion paths build for every detected month
(metrics_routes.py lines 1885/1912, excel_routes.py line 271). -/
def ingestAsOfKey (dt : CalDate) : CalDate :=
  ⟨dt.year, dt.month, daysInMonth dt.year dt.month⟩

/-- A date is the last calendar day of its month. -/
def isMonthEnd (d : CalDate) : Prop := d.day = daysInMonth d.year d.month

instance (d : CalDate) : Decidable (isMonthEnd d) := by unfold isMonthEnd; infer_instance

/-! ## Basis Window Resolver (C5)

`_coerce_period_end` and `_bounds_for_basis`
(metrics_routes.py lines 479–546). -/

/-- Python `str.lower()`. -/
def toLowerStr (s : String) : String := String.mk (s.data.map Char.toLower)

/-- Python `max(dates)` over datetimes: first maximal element (`none` on an
empty list). -/
def listMaxD : List CalDate → Option CalDate
  | [] => none
  | x :: xs => some (xs.foldl (fun acc y => if dateLt acc y then y else acc) x)

/-- Python `min(dates)`: first minimal element. -/
def listMinD : List CalDate → Option CalDate
  | [] => none
  | x :: xs => some (xs.foldl (fun acc y => if dateLt y acc then y else acc) x)

/-- `_coerce_period_end(dN_from_data, query_val, dates_for_scan, year_qs)`:
explicit year → latest date of that year; `YYYY-MM` → latest date in that
month; `YYYY` → latest date of that year; else `datetime.fromisoformat`;
every failed branch falls through, ultimately to `dN`. -/
def coercePeriodEnd (dN : CalDate) (queryVal : Option String)
    (datesForScan : List CalDate) (yearQs : Option String) : CalDate :=
  match (match yearQs with
         | some yq =>
           if yq ≠ "" then
             match digitsToNat? (pyStrip yq).data with
             | some y => listMaxD (datesForScan.filter (fun d => d.year = (y : ℤ)))
             | none => none
           else none
         | none => none) with
  | some d => d
  | none =>
    match queryVal with
    | none => dN
    | some q =>
      if q = "" then dN
      else
        match (if (pyStrip q).length = 7 ∧ (pyStrip q).data.getD 4 ' ' = '-' then
                 match digitsToNat? (strSlice (pyStrip q) 0 4).data,
                     digitsToNat? (strSlice (pyStrip q) 5 7).data with
                 | some y, some m =>
                   listMaxD (datesForScan.filter
                     (fun d => d.year = (y : ℤ) ∧ d.month = m))
                 | _, _ => none
               else none) with
        | some d => d
        | none =>
          match (if (pyStrip q).length = 4 ∧ (pyStrip q).data.all Char.isDigit then
                   match digitsToNat? (pyStrip q).data with
                   | some y =>
                     listMaxD (datesForScan.filter (fun d => d.year = (y : ℤ)))
                   | none => none
                 else none) with
          | some d => d
          | none =>
            match parseIsoDate (pyStrip q) with
            | some d => d
            | none => dN

/-- `_quarter_start(dt)`: first day of the calendar quarter of `dt`. -/
def quarterStart (dt : CalDate) : CalDate :=
  ⟨dt.year, ((dt.month - 1) / 3) * 3 + 1, 1⟩

/-- `_ytd_start(dt)`: January 1 of `dt`'s year. -/
def ytdStart (dt : CalDate) : CalDate := ⟨dt.year, 1, 1⟩

/-- `_bounds_for_basis(dates, basis, period_end_qs, year_qs)`: resolve the
window end (then clamp it to `dN`), and the start according to the basis.
Note the clamp runs after the start was computed from the unclamped end. -/
def boundsForBasis (dates : List CalDate) (basis : String)
    (periodEndQs : Option String) (yearQs : Option String) :
    Option (CalDate × CalDate) :=
  match listMinD dates, listMaxD dates with
  | some d0, some dN =>
    let e := coercePeriodEnd dN periodEndQs dates yearQs
    let b := if basis = "" then "inception" else toLowerStr basis
    let start := if b = "latest" then e
      else if b = "inception" then d0
      else if b = "ytd" then ytdStart e
      else if b = "quarter" then quarterStart e
      else if b = "month" ∨ b = "day" then e
      else d0
    some (start, if dateLt dN e then dN else e)
  | _, _ => none

/-! ## Period Aggregator (C4)

`_sum_investor_rows_ignore_total(values, start_label_row_1b, date_col_1b,
stop_row_1b=None, name_col_1b=2, id_col_1b=1, max_blank_streak=50)`
(excel_routes.py lines 197–226): walk rows below the label row, skip
"total"/"entity level"/"grand total" rows, stop after `max_blank_streak`
consecutive rows with no name and no identifier, sum the parseable numbers
of the value column over the remaining rows, and return `None` when nothing
was ever accumulated. -/

/-- The forbidden subtotal row names. -/
def FORBIDDEN : List String := ["total", "entity level", "grand total"]

/-- The loop of `_sum_investor_rows_ignore_total`: `r` is the current row,
`blanks` the current blank streak, `total`/`acc` the running sum and the
has-accumulated flag (`total = 0.0; have = False; blanks = 0`). -/
def sumRowsAux (values : Grid) (limit dateCol nameCol idCol maxBlank : ℕ)
    (r blanks : ℕ) (total : ℚ) (acc : Bool) : Option ℚ :=
  if h : r < limit ∧ r ≤ values.length then
    if cellCleanTxt (cellAt values r nameCol) ∈ FORBIDDEN then
      sumRowsAux values limit dateCol nameCol idCol maxBlank (r + 1) 0 total acc
    else if cellCleanTxt (cellAt values r nameCol) ≠ "" ∨
        idNonempty (cellAt values r idCol) = true then
      match toFloatCell (cellAt values r dateCol) with
      | some q =>
        sumRowsAux values limit dateCol nameCol idCol maxBlank (r + 1) 0 (total + q) true
      | none =>
        sumRowsAux values limit dateCol nameCol idCol maxBlank (r + 1) 0 total acc
    else
      if maxBlank ≤ blanks + 1 then (if acc then some total else none)
      else sumRowsAux values limit dateCol nameCol idCol maxBlank (r + 1) (blanks + 1) total acc
  else (if acc then some total else none)
termination_by values.length + 1 - r
decreasing_by all_goals omega

/-- The `stop_row_1b if stop_row_1b else rows + 1` loop bound (`0` is falsy
in Python). -/
def stopLimit (values : Grid) (stopRow : Option ℕ) : ℕ :=
  match stopRow with
  | some s => if s = 0 then values.length + 1 else s
  | none => values.length + 1

/-- `_sum_investor_rows_ignore_total` itself. -/
def sum_investor_rows_ignore_total (values : Grid) (startLabelRow dateCol : ℕ)
    (stopRow : Option ℕ) (nameCol idCol maxBlank : ℕ) : Option ℚ :=
  sumRowsAux values (stopLimit values stopRow) dateCol nameCol idCol maxBlank
    (startLabelRow + 1) 0 0 false

/-- Ghost companion of `sumRowsAux`: the `(row, parsed value)` pairs that the
loop accumulates, in order. -/
def contribAux (values : Grid) (limit dateCol nameCol idCol maxBlank : ℕ)
    (r blanks : ℕ) : List (ℕ × ℚ) :=
  if h : r < limit ∧ r ≤ values.length then
    if cellCleanTxt (cellAt values r nameCol) ∈ FORBIDDEN then
      contribAux values limit dateCol nameCol idCol maxBlank (r + 1) 0
    else if cellCleanTxt (cellAt values r nameCol) ≠ "" ∨
        idNonempty (cellAt values r idCol) = true then
      match toFloatCell (cellAt values r dateCol) with
      | some q => (r, q) :: contribAux values limit dateCol nameCol idCol maxBlank (r + 1) 0
      | none => contribAux values limit dateCol nameCol idCol maxBlank (r + 1) 0
    else
      if maxBlank ≤ blanks + 1 then []
      else contribAux values limit dateCol nameCol idCol maxBlank (r + 1) (blanks + 1)
  else []
termination_by values.length + 1 - r
decreasing_by all_goals omega

/-- The rows and values the aggregation accumulates. -/
def contribs (values : Grid) (startLabelRow dateCol : ℕ) (stopRow : Option ℕ)
    (nameCol idCol maxBlank : ℕ) : List (ℕ × ℚ) :=
  contribAux values (stopLimit values stopRow) dateCol nameCol idCol maxBlank
    (startLabelRow + 1) 0

/-- A row with no non-empty name and no identifier ("blank" in §4.5). -/
def blankRow (values : Grid) (nameCol idCol r : ℕ) : Prop :=
  cellCleanTxt (cellAt values r nameCol) = "" ∧
    idNonempty (cellAt values r idCol) = false

instance (values : Grid) (nameCol idCol r : ℕ) :
    Decidable (blankRow values nameCol idCol r) := by
  unfold blankRow; infer_instance

/-! ## Header & Date-Column Detector (C7)

`_find_header_row_and_date_columns(values, max_scan_rows, anchor_row)`
(excel_routes.py lines 154–177; the metrics_routes.py copy at lines
1769–1794 is identical apart from its scan default and date-format list).
A cell is date-like if it is a native date, an in-range Excel serial, or a
string one of the candidate formats parses; no sanity bound is applied
here. -/

/-- `_looks_like_date(v)`. -/
def looksLikeDate : Cell → Bool
  | .date _ => true
  | .num q => decide (20000 < q ∧ q < 90000)
  | _ => false

/-- `_parse_date_any(v)` (date part). -/
def parseDateAny : Cell → Option CalDate
  | .date d => some d
  | .num q =>
    if 20000 < q ∧ q < 90000 then some (daysToDate (excelEpoch + ⌊q⌋)) else none
  | _ => none

/-- The date cells of row `r`: `{c: parsed date}` in column order. -/
def rowDateCells (values : Grid) (r cols : ℕ) : List (ℕ × CalDate) :=
  (List.range' 1 cols).filterMap (fun c =>
    if looksLikeDate (cellAt values r c) then
      (parseDateAny (cellAt values r c)).map (fun d => (c, d))
    else none)

/-- `max((len(r) for r in values), default=0)`. -/
def colsOf (values : Grid) : ℕ := (values.map List.length).foldr max 0

/-- Header-row candidates: rows (within the scan window) with at least two
date cells. -/
def headerCandidates (values : Grid) (maxScanRows : ℕ) :
    List (ℕ × List (ℕ × CalDate)) :=
  (List.range' 1 (min values.length maxScanRows)).filterMap (fun r =>
    if 2 ≤ (rowDateCells values r (colsOf values)).length then
      some (r, rowDateCells values r (colsOf values))
    else none)

/-- First element minimizing `key` (`sorted(...)[0]` of a stable sort). -/
def selectMinBy {α : Type _} (key : α → ℤ ×ₗ ℤ) : List α → Option α
  | [] => none
  | x :: xs => some (xs.foldl (fun acc y => if key y < key acc then y else acc) x)

/-- `_find_header_row_and_date_columns`: with an anchor, prefer the
candidate nearest to and at-or-above it (sort key `(anchor - r, -len)`);
else the candidate with most date cells, topmost first (key `(-len, r)`). -/
def findHeaderRowAndDateColumns (values : Grid) (maxScanRows : ℕ)
    (anchorRow : Option ℕ) : Option (ℕ × List (ℕ × CalDate)) :=
  match headerCandidates values maxScanRows with
  | [] => none
  | c :: cs =>
    let cands := c :: cs
    let globalPick := selectMinBy
      (fun x => toLex (-(x.2.length : ℤ), (x.1 : ℤ))) cands
    match anchorRow with
    | some a =>
      if a ≠ 0 then
        match cands.filter (fun x => x.1 ≤ a) with
        | [] => globalPick
        | b :: bs =>
          selectMinBy (fun x => toLex ((a : ℤ) - (x.1 : ℤ), -(x.2.length : ℤ)))
            (b :: bs)
      else globalPick
    | none => globalPick

/-! ## Label/Alias Matcher and Metric Column Resolver (C8)

`_LABEL_ALIASES` with `p.fullmatch(txt)` over the cleaned text.  Every alias
regex has a finite language; the tables below are their exact expansions, in
the dictionaries' insertion order. -/

/-- The five canonical labels, by their `_METRIC_KEYS` values. -/
inductive MetricKey where
  | beginning
  | ending
  | unrealized
  | realized
  | fees
deriving DecidableEq, Repr

/-- Expansion of excel_routes.py `_LABEL_ALIASES` (lines 125–145). -/
def aliasExcel : MetricKey → List String
  | .beginning =>
    ["begin balance", "beginning balance", "opening nav", "opening balance",
     "current period begin balance", "current period beginning balance",
     "total begin balance", "total beginning balance", "total beginning balance"]
  | .ending =>
    ["ending balance", "closing balance", "current value",
     "total ending balance", "total current value"]
  | .unrealized =>
    ["unrealised gain/loss", "unrealised gainloss", "unrealied gain/loss",
     "unrealied gainloss", "unrealized pnl", "total unrealised gain/loss",
     "total unrealised gainloss", "total unrealied gain/loss",
     "total unrealied gainloss"]
  | .realized =>
    ["realised gain/loss", "realised gainloss", "realied gain/loss",
     "realied gainloss", "realized pnl", "total realised gain/loss",
     "total realised gainloss", "total realied gain/loss",
     "total realied gainloss"]
  | .fees =>
    ["management fee", "management fees", "mgmt fee", "mgmt fees",
     "total management fee", "total management fees"]

/-- Expansion of metrics_routes.py `_LABEL_ALIASES` (lines 1686–1718); note
its Unrealized set also contains the `realis?ed gain/\(loss\)` patterns and
its Fees set the `manag(e|ing) fees?` patterns. -/
def aliasMetrics : MetricKey → List String
  | .beginning =>
    ["begin balance", "beginning balance", "opening nav", "opening balance",
     "current period begin balance", "current period beginning balance",
     "total begin balance", "total beginning balance", "total beginning balance"]
  | .ending =>
    ["ending balance", "closing balance", "current value",
     "total ending balance", "total current value"]
  | .unrealized =>
    ["unrealised gain/loss", "unrealised gainloss", "unrealied gain/loss",
     "unrealied gainloss", "unrealized pnl", "realised gain/(loss)",
     "realied gain/(loss)", "total unrealised gain/loss",
     "total unrealised gainloss", "total unrealied gain/loss",
     "total unrealied gainloss"]
  | .realized =>
    ["realised gain/loss", "realised gainloss", "realied gain/loss",
     "realied gainloss", "realized pnl", "total realised gain/loss",
     "total realised gainloss", "total realied gain/loss",
     "total realied gainloss"]
  | .fees =>
    ["management fee", "management fees", "manage fee", "manage fees",
     "managing fee", "managing fees", "mgmt fee", "mgmt fees",
     "total management fee", "total management fees"]

/-- First canonical label (in dict order) whose alias set fully matches. -/
def classifyWith (tbl : MetricKey → List String) (txt : String) :
    Option MetricKey :=
  if txt ∈ tbl .beginning then some .beginning
  else if txt ∈ tbl .ending then some .ending
  else if txt ∈ tbl .unrealized then some .unrealized
  else if txt ∈ tbl .realized then some .realized
  else if txt ∈ tbl .fees then some .fees
  else none

/-- excel_routes classification of a raw cell. -/
def classifyCellExcel (c : Cell) : Option MetricKey :=
  classifyWith aliasExcel (cellCleanTxt c)

/-- metrics_routes classification of a raw cell. -/
def classifyCellMetrics (c : Cell) : Option MetricKey :=
  classifyWith aliasMetrics (cellCleanTxt c)

/-- Classification attempt at row `header_row - d` (`continue` when the row
number is below 1). -/
def checkAbove (values : Grid) (hr col d : ℕ) : Option MetricKey :=
  if 1 ≤ hr - d then classifyCellExcel (cellAt values (hr - d) col) else none

/-- Classification attempt at row `header_row + d`. -/
def checkBelow (values : Grid) (hr col d : ℕ) : Option MetricKey :=
  if 1 ≤ hr + d then classifyCellExcel (cellAt values (hr + d) col) else none

/-- The loop of excel_routes `_metric_for_column` (lines 179–191): for `d`
in `range(0, 13)`, try rows `header_row - d` and `header_row + d` (skipping
row numbers below 1), returning the first classification.  `fuel` is the
number of remaining `d` iterations. -/
def metricForColumnExcelGo (values : Grid) (hr col : ℕ) : ℕ → ℕ → Option MetricKey
  | 0, _ => none
  | fuel + 1, d =>
    match checkAbove values hr col d with
    | some k => some k
    | none =>
      match checkBelow values hr col d with
      | some k => some k
      | none => metricForColumnExcelGo values hr col fuel (d + 1)

/-- excel_routes `_metric_for_column(values, header_row_1b, col_1b)`. -/
def metric_for_column_excel (values : Grid) (hr col : ℕ) : Option MetricKey :=
  metricForColumnExcelGo values hr col 13 0

/-- The loop of metrics_routes `_metric_for_column` (lines 1796–1808):
`r = header_row; while r >= 1 and r >= header_row - lookback_rows:` check
row `r`, then `r -= 1`.  `fuel` is the number of remaining iterations
(`lookback + 1`). -/
def metricForColumnMetricsGo (values : Grid) (col : ℕ) : ℕ → ℕ → Option MetricKey
  | 0, _ => none
  | fuel + 1, r =>
    if 1 ≤ r then
      match classifyCellMetrics (cellAt values r col) with
      | some k => some k
      | none => metricForColumnMetricsGo values col fuel (r - 1)
    else none

/-- metrics_routes `_metric_for_column(values, header_row_1b, col_1b,
lookback_rows=10)`. -/
def metric_for_column_metrics (values : Grid) (hr col lookback : ℕ) :
    Option MetricKey :=
  metricForColumnMetricsGo values col (lookback + 1) hr

/-! ## Theorems -/

theorem dateLe_refl (a : CalDate) : dateLe a a := by unfold dateLe; omega

theorem dateLe_total (a b : CalDate) : dateLe a b ∨ dateLe b a := by
  unfold dateLe; omega

theorem dateLt_iff_not_le (a b : CalDate) : dateLt a b ↔ ¬ dateLe b a := by
  unfold dateLt dateLe; omega

theorem dateLe_trans {a b c : CalDate} (h₁ : dateLe a b) (h₂ : dateLe b c) :
    dateLe a c := by
  unfold dateLe at *; omega

theorem dateLe_of_lt {a b : CalDate} (h : dateLt a b) : dateLe a b := by
  unfold dateLt at h; unfold dateLe; omega

theorem ite_upsert_sheet (r : StoredRow) (v : PeriodVals) (t : ℕ) :
    (if sameKey r v then applyUpdate r v t else r).sheet = r.sheet := by
  split <;> simp [applyUpdate]

theorem ite_upsert_asof (r : StoredRow) (v : PeriodVals) (t : ℕ) :
    (if sameKey r v then applyUpdate r v t else r).as_of_date = r.as_of_date := by
  split <;> simp [applyUpdate]

theorem sameKey_applyUpdate (r : StoredRow) (v : PeriodVals) (t : ℕ) :
    sameKey (applyUpdate r v t) v = sameKey r v := by
  simp [sameKey, applyUpdate]

theorem sameKey_ite (r : StoredRow) (v : PeriodVals) (t : ℕ) :
    sameKey (if sameKey r v then applyUpdate r v t else r) v = sameKey r v := by
  by_cases hk : sameKey r v = true
  · rw [if_pos hk, sameKey_applyUpdate]
  · rw [if_neg hk]

theorem find?_pred {α : Type _} {p : α → Bool} {l : List α} {a : α}
    (h : l.find? p = some a) : p a = true :=
  List.find?_some h

theorem findRow_some_mem {l : List StoredRow} {v : PeriodVals} {r : StoredRow}
    (h : findRow l v = some r) : r ∈ l ∧ sameKey r v = true := by
  unfold findRow at h
  have hp := find?_pred h
  exact ⟨List.mem_of_find?_eq_some h, hp⟩

theorem upsertRow_of_any_true {store : List StoredRow} {v : PeriodVals} {t : ℕ}
    (h : store.any (fun r => sameKey r v) = true) :
    upsertRow store v t =
      store.map (fun r => if sameKey r v then applyUpdate r v t else r) := by
  unfold upsertRow
  rw [if_pos h]

theorem find?_append_of_none {α : Type _} (l l' : List α) (p : α → Bool)
    (h : l.find? p = none) : (l ++ l').find? p = l'.find? p := by
  induction l with
  | nil => simp
  | cons a as ih =>
    cases hpa : p a with
    | true => rw [List.find?_cons_of_pos _ hpa] at h; exact absurd h (by simp)
    | false =>
      rw [List.find?_cons_of_neg _ (by simp [hpa])] at h
      rw [List.cons_append, List.find?_cons_of_neg _ (by simp [hpa])]
      exact ih h

theorem keyUnique_eq_of_sameKey {l : List StoredRow} (h : KeyUnique l)
    {r r' : StoredRow} {v : PeriodVals} (hr : r ∈ l) (hr' : r' ∈ l)
    (h1 : sameKey r v = true) (h2 : sameKey r' v = true) : r = r' := by
  by_contra hne
  have hsym : Symmetric
      (fun a b : StoredRow => ¬(a.sheet = b.sheet ∧ a.as_of_date = b.as_of_date)) := by
    intro a b hab hc
    exact hab ⟨hc.1.symm, hc.2.symm⟩
  have hres := List.Pairwise.forall hsym h hr hr' hne
  simp only [sameKey, decide_eq_true_eq] at h1 h2
  exact hres ⟨h1.1.trans h2.1.symm, h1.2.trans h2.2.symm⟩

theorem upsertRow_keyUnique {store : List StoredRow} {v : PeriodVals} {t : ℕ}
    (h : KeyUnique store) : KeyUnique (upsertRow store v t) := by
  unfold upsertRow
  split
  · unfold KeyUnique at h ⊢
    rw [List.pairwise_map]
    refine h.imp ?_
    intro a b hab hc
    apply hab
    rwa [ite_upsert_sheet, ite_upsert_sheet, ite_upsert_asof, ite_upsert_asof] at hc
  · next hany =>
    unfold KeyUnique at h ⊢
    rw [List.pairwise_append]
    refine ⟨h, List.pairwise_singleton _ _, ?_⟩
    intro a ha b hb
    have hb' : b = insertRow v t := by simpa using hb
    subst hb'
    intro hc
    apply hany
    rw [List.any_eq_true]
    refine ⟨a, ha, ?_⟩
    simp only [sameKey, insertRow] at hc ⊢
    simp_all

theorem findRow_upsert_conflict {store : List StoredRow} {v : PeriodVals} {t : ℕ}
    {r₀ : StoredRow} (h : findRow store v = some r₀) :
    findRow (upsertRow store v t) v = some (applyUpdate r₀ v t) := by
  obtain ⟨hmem, hkey⟩ := findRow_some_mem h
  have hany : store.any (fun r => sameKey r v) = true := by
    rw [List.any_eq_true]
    exact ⟨r₀, hmem, hkey⟩
  rw [upsertRow_of_any_true hany]
  unfold findRow at h ⊢
  rw [List.find?_map]
  have hcomp : ((fun r => sameKey r v) ∘
      (fun r => if sameKey r v then applyUpdate r v t else r)) =
      (fun r => sameKey r v) := by
    funext r
    simp only [Function.comp_apply]
    exact sameKey_ite r v t
  rw [hcomp, h]
  simp only [Option.map_some']
  rw [if_pos hkey]

theorem findRow_upsert_fresh {store : List StoredRow} {v : PeriodVals} {t : ℕ}
    (h : findRow store v = none) :
    findRow (upsertRow store v t) v = some (insertRow v t) := by
  have hany : store.any (fun r => sameKey r v) = false := by
    rw [Bool.eq_false_iff]
    intro hc
    rw [List.any_eq_true] at hc
    obtain ⟨r, hr, hk⟩ := hc
    unfold findRow at h
    rw [List.find?_eq_none] at h
    exact absurd hk (by simpa using h r hr)
  unfold upsertRow findRow
  rw [if_neg (by simp [hany])]
  rw [find?_append_of_none _ _ _ h]
  rw [List.find?_cons_of_pos]
  simp [sameKey, insertRow]

theorem findRow_upsert_self_fins {store : List StoredRow} {v : PeriodVals} {t t' : ℕ}
    {r₁ : StoredRow} (h : findRow (upsertRow store v t) v = some r₁) :
    applyUpdate r₁ v t' = { r₁ with updated_at := t' } := by
  cases hf : findRow store v with
  | some r₀ =>
    rw [findRow_upsert_conflict hf] at h
    cases h
    simp [applyUpdate]
  | none =>
    rw [findRow_upsert_fresh hf] at h
    cases h
    simp [applyUpdate, insertRow]

/-- C2: the conflict-keyed upsert preserves the at-most-one-record-per-key
invariant; re-applying the same record leaves the record count and every
column except `updated_at` (in particular all financial fields and
`created_at`) unchanged; on conflict the financial fields, `source` and
`updated_at` are overwritten while `created_at` is preserved
(`applyUpdate`); a fresh key is inserted with both timestamps set. -/
theorem period_store_upsert_idempotent (store : List StoredRow) (v : PeriodVals)
    (t₁ t₂ : ℕ) (h : KeyUnique store) :
    KeyUnique (upsertRow store v t₁) ∧
    (upsertRow (upsertRow store v t₁) v t₂).length = (upsertRow store v t₁).length ∧
    (upsertRow (upsertRow store v t₁) v t₂).map clearUpdated =
      (upsertRow store v t₁).map clearUpdated ∧
    (∀ r₀, findRow store v = some r₀ →
      findRow (upsertRow store v t₁) v = some (applyUpdate r₀ v t₁)) ∧
    (findRow store v = none →
      findRow (upsertRow store v t₁) v = some (insertRow v t₁)) ∧
    (∀ r ∈ upsertRow (upsertRow store v t₁) v t₂, sameKey r v = true →
      r.updated_at = t₂) := by
  have h₁ : KeyUnique (upsertRow store v t₁) := upsertRow_keyUnique h
  obtain ⟨r₁, hr₁⟩ : ∃ r₁, findRow (upsertRow store v t₁) v = some r₁ := by
    cases hf : findRow store v with
    | some r₀ => exact ⟨_, findRow_upsert_conflict hf⟩
    | none => exact ⟨_, findRow_upsert_fresh hf⟩
  obtain ⟨hmem₁, hkey₁⟩ := findRow_some_mem hr₁
  have hany₁ : (upsertRow store v t₁).any (fun r => sameKey r v) = true := by
    rw [List.any_eq_true]
    exact ⟨r₁, hmem₁, hkey₁⟩
  have hs₂ : upsertRow (upsertRow store v t₁) v t₂ =
      (upsertRow store v t₁).map
        (fun r => if sameKey r v then applyUpdate r v t₂ else r) :=
    upsertRow_of_any_true hany₁
  refine ⟨h₁, ?_, ?_, fun r₀ hf => findRow_upsert_conflict hf,
    fun hf => findRow_upsert_fresh hf, ?_⟩
  · rw [hs₂, List.length_map]
  · rw [hs₂, List.map_map]
    apply List.map_congr_left
    intro r hr
    by_cases hk : sameKey r v = true
    · have hreq : r = r₁ := keyUnique_eq_of_sameKey h₁ hr hmem₁ hk hkey₁
      subst hreq
      simp only [Function.comp_apply, if_pos hk]
      rw [findRow_upsert_self_fins hr₁]
      simp [clearUpdated]
    · simp [Function.comp_apply, hk]
  · intro r hr hk
    rw [hs₂] at hr
    obtain ⟨r', hr', hreq⟩ := List.mem_map.1 hr
    by_cases hk' : sameKey r' v = true
    · rw [if_pos hk'] at hreq
      rw [← hreq]
      simp [applyUpdate]
    · rw [if_neg (by simp [hk'])] at hreq
      subst hreq
      exact absurd hk (by simp [hk'])

/-- Witness for `period_store_upsert_idempotent` on the empty store. -/
theorem period_store_upsert_idempotent_witness :
    (upsertRow (upsertRow []
        ⟨"bCAS (Q4 Adj)", ⟨2024, 1, 31⟩, some 100, some 110, none, none, none,
          "overview"⟩ 5)
      ⟨"bCAS (Q4 Adj)", ⟨2024, 1, 31⟩, some 100, some 110, none, none, none,
        "overview"⟩ 9).length =
    (upsertRow []
      ⟨"bCAS (Q4 Adj)", ⟨2024, 1, 31⟩, some 100, some 110, none, none, none,
        "overview"⟩ 5).length :=
  (period_store_upsert_idempotent []
    ⟨"bCAS (Q4 Adj)", ⟨2024, 1, 31⟩, some 100, some 110, none, none, none,
      "overview"⟩ 5 9 List.Pairwise.nil).2.1

theorem cfExpected_ending (prev : Option (Option ℚ)) (m : MonthRec) :
    (cfExpected prev m).ending = m.ending := by
  unfold cfExpected
  split
  · cases prev <;> simp
  · rfl

theorem carryForwardGo_eq (l : List (CalDate × MonthRec)) :
    ∀ done : List (CalDate × MonthRec),
      carryForwardGo done l =
        done ++ carryForwardSimple (done.getLast?.map (fun p => p.2.ending)) l := by
  induction l with
  | nil => intro done; simp [carryForwardGo, carryForwardSimple]
  | cons hd tl ih =>
    intro done
    obtain ⟨d, m⟩ := hd
    show carryForwardGo (done ++ [(d, _)]) tl = _
    rw [ih]
    have hlast : (done ++ [(d, cfExpected (done.getLast?.map (fun p => p.2.ending)) m)]).getLast? =
        some (d, cfExpected (done.getLast?.map (fun p => p.2.ending)) m) :=
      List.getLast?_concat _
    have hm' : (if m.beginning = none then
        match done.getLast? with
        | some p => { m with beginning := p.2.ending }
        | none => m
      else m) = cfExpected (done.getLast?.map (fun p => p.2.ending)) m := by
      unfold cfExpected
      cases done.getLast? <;> rfl
    rw [hm', hlast]
    simp only [Option.map_some', cfExpected_ending]
    rw [List.append_assoc, List.singleton_append]
    rfl

theorem carryForwardSimple_length (prev : Option (Option ℚ))
    (l : List (CalDate × MonthRec)) :
    (carryForwardSimple prev l).length = l.length := by
  induction l generalizing prev with
  | nil => rfl
  | cons hd tl ih =>
    obtain ⟨d, m⟩ := hd
    simp [carryForwardSimple, ih]

theorem carryForwardSimple_get (l : List (CalDate × MonthRec)) :
    ∀ (prev : Option (Option ℚ)) (i : ℕ),
      (carryForwardSimple prev l)[i]? =
        match l[i]? with
        | none => none
        | some (d, m) =>
          some (d, cfExpected
            (if i = 0 then prev else l[i - 1]?.map (fun p => p.2.ending)) m) := by
  induction l with
  | nil => intro prev i; simp [carryForwardSimple]
  | cons hd tl ih =>
    intro prev i
    obtain ⟨d₀, m₀⟩ := hd
    cases i with
    | zero => simp [carryForwardSimple]
    | succ j =>
      rw [show carryForwardSimple prev ((d₀, m₀) :: tl) =
        (d₀, cfExpected prev m₀) :: carryForwardSimple (some m₀.ending) tl from rfl]
      rw [List.getElem?_cons_succ, ih, List.getElem?_cons_succ]
      cases j with
      | zero =>
        cases htl : tl[0]? with
        | none => simp [htl]
        | some p =>
          obtain ⟨d, m⟩ := p
          simp [htl, List.getElem?_cons_zero]
      | succ k =>
        cases htl : tl[k + 1]? with
        | none => simp [htl]
        | some p =>
          obtain ⟨d, m⟩ := p
          simp [htl, List.getElem?_cons_succ]

theorem pairwise_get_of_lt {α : Type _} {R : α → α → Prop} {l : List α}
    (h : l.Pairwise R) {i j : ℕ} {a b : α} (hij : i < j)
    (ha : l[i]? = some a) (hb : l[j]? = some b) : R a b := by
  rw [List.getElem?_eq_some] at ha hb
  obtain ⟨hi, ha⟩ := ha
  obtain ⟨hj, hb⟩ := hb
  subst ha hb
  exact List.pairwise_iff_get.1 h ⟨i, hi⟩ ⟨j, hj⟩ hij

theorem carryForwardSimple_get_some {l : List (CalDate × MonthRec)}
    {prev : Option (Option ℚ)} {i : ℕ} {d : CalDate} {m : MonthRec}
    (h : l[i]? = some (d, m)) :
    (carryForwardSimple prev l)[i]? =
      some (d, cfExpected
        (if i = 0 then prev else l[i - 1]?.map (fun p => p.2.ending)) m) := by
  rw [carryForwardSimple_get, h]

/-- C3: carry-forward keeps length, keys, endings and non-null beginnings;
a month with a null beginning and no earlier month keeps it null-as-is;
a month with a null beginning and an earlier month gets the ending of its
predecessor, which under ascending-key order is the chronologically nearest
prior month (strictly earlier, and at-or-after every other earlier month). -/
theorem carry_forward_correct (l : List (CalDate × MonthRec))
    (hsort : l.Pairwise (fun a b => dateLt a.1 b.1)) :
    (carryForward l).length = l.length ∧
    (∀ i d m, l[i]? = some (d, m) →
      (m.beginning ≠ none → (carryForward l)[i]? = some (d, m)) ∧
      (m.beginning = none → i = 0 → (carryForward l)[i]? = some (d, m)) ∧
      (∀ dp mp, m.beginning = none → i ≠ 0 → l[i - 1]? = some (dp, mp) →
        (carryForward l)[i]? = some (d, { m with beginning := mp.ending }) ∧
        dateLt dp d ∧
        (∀ j dj mj, j < i → l[j]? = some (dj, mj) → dateLe dj dp))) := by
  have hcf : carryForward l = carryForwardSimple none l := by
    unfold carryForward
    rw [carryForwardGo_eq]
    simp
  constructor
  · rw [hcf, carryForwardSimple_length]
  · intro i d m hi
    refine ⟨?_, ?_, ?_⟩
    · intro hbeg
      rw [hcf, carryForwardSimple_get_some hi]
      unfold cfExpected
      rw [if_neg hbeg]
    · intro hbeg hi0
      subst hi0
      rw [hcf, carryForwardSimple_get_some hi, if_pos rfl]
      unfold cfExpected
      rw [if_pos hbeg]
    · intro dp mp hbeg hi0 hprev
      refine ⟨?_, ?_, ?_⟩
      · rw [hcf, carryForwardSimple_get_some hi, if_neg hi0, hprev]
        simp only [Option.map_some']
        unfold cfExpected
        rw [if_pos hbeg]
      · exact pairwise_get_of_lt hsort (by omega) hprev hi
      · intro j dj mj hji hj
        rcases Nat.lt_or_ge j (i - 1) with hlt | hge
        · exact dateLe_of_lt (pairwise_get_of_lt hsort hlt hj hprev)
        · have hjeq : j = i - 1 := by omega
          subst hjeq
          rw [hj] at hprev
          cases hprev
          exact dateLe_refl _

/-- Witness for `carry_forward_correct`: M1 (ending 100, beginning null) and
M2 (beginning null, ending 120) — after aggregation M2.beginning = 100. -/
theorem carry_forward_correct_witness :
    (carryForward [(⟨2024, 1, 31⟩, ⟨none, some 100, none, none, none⟩),
        (⟨2024, 2, 29⟩, ⟨none, some 120, none, none, none⟩)])[1]? =
      some (⟨2024, 2, 29⟩, ⟨some 100, some 120, none, none, none⟩) :=
  (((carry_forward_correct
      [(⟨2024, 1, 31⟩, ⟨none, some 100, none, none, none⟩),
        (⟨2024, 2, 29⟩, ⟨none, some 120, none, none, none⟩)] (by decide)).2
    1 ⟨2024, 2, 29⟩ ⟨none, some 120, none, none, none⟩ rfl).2.2
    ⟨2024, 1, 31⟩ ⟨none, some 100, none, none, none⟩ rfl (by decide) rfl).1

theorem mem_upsertRow {store : List StoredRow} {v : PeriodVals} {t : ℕ}
    {r : StoredRow} (h : r ∈ upsertRow store v t) :
    r ∈ store ∨ (r.beginning_balance = v.beginning_balance ∧
      r.ending_balance = v.ending_balance) := by
  unfold upsertRow at h
  split at h
  · obtain ⟨r', hr', hre⟩ := List.mem_map.1 h
    by_cases hk : sameKey r' v = true
    · rw [if_pos hk] at hre
      right
      rw [← hre]
      simp [applyUpdate]
    · rw [if_neg hk] at hre
      left
      rw [← hre]
      exact hr'
  · rw [List.mem_append] at h
    rcases h with h | h
    · exact Or.inl h
    · right
      have hre : r = insertRow v t := by simpa using h
      rw [hre]
      simp [insertRow]

/-- C10: the persist-on-read upsert is a silent no-op (store unchanged, no
exception escapes) whenever the overview result has no `period_end`, an
unparseable `period_end`, no `initial_value` or no `current_value`; every
row it ever persists carries both a beginning and an ending value. -/
theorem persist_on_read_guards (store : List StoredRow) (sheetName : String)
    (data : OverviewData) (now : ℕ) :
    ((data.period_end = none ∨ pyStrip (data.period_end.getD "") = "") →
      upsertPeriodMetric store sheetName data now = store) ∧
    (periodEndToAsOf (pyStrip (data.period_end.getD "")) = none →
      upsertPeriodMetric store sheetName data now = store) ∧
    (data.initial_value = none →
      upsertPeriodMetric store sheetName data now = store) ∧
    (data.current_value = none →
      upsertPeriodMetric store sheetName data now = store) ∧
    (∀ r ∈ upsertPeriodMetric store sheetName data now,
      r ∈ store ∨ (r.beginning_balance.isSome ∧ r.ending_balance.isSome)) := by
  refine ⟨?_, ?_, ?_, ?_, ?_⟩
  · intro h
    have hpe : pyStrip (data.period_end.getD "") = "" := by
      rcases h with h | h
      · rw [h]; rfl
      · exact h
    unfold upsertPeriodMetric
    rw [if_pos hpe]
  · intro h
    unfold upsertPeriodMetric
    by_cases hpe : pyStrip (data.period_end.getD "") = ""
    · rw [if_pos hpe]
    · rw [if_neg hpe, h]
  · intro h
    unfold upsertPeriodMetric
    by_cases hpe : pyStrip (data.period_end.getD "") = ""
    · rw [if_pos hpe]
    · rw [if_neg hpe]
      cases periodEndToAsOf (pyStrip (data.period_end.getD "")) with
      | none => rfl
      | some asOf => rw [h]
  · intro h
    unfold upsertPeriodMetric
    by_cases hpe : pyStrip (data.period_end.getD "") = ""
    · rw [if_pos hpe]
    · rw [if_neg hpe]
      cases periodEndToAsOf (pyStrip (data.period_end.getD "")) with
      | none => rfl
      | some asOf => rw [h]; cases data.initial_value <;> rfl
  · intro r hr
    unfold upsertPeriodMetric at hr
    split at hr
    · exact Or.inl hr
    · revert hr
      cases periodEndToAsOf (pyStrip (data.period_end.getD "")) with
      | none => exact fun hr => Or.inl hr
      | some asOf =>
        cases hiv : data.initial_value with
        | none => exact fun hr => Or.inl hr
        | some iv =>
          cases hcv : data.current_value with
          | none => exact fun hr => Or.inl hr
          | some cv =>
            intro hr
            rcases mem_upsertRow hr with hmem | hfields
            · exact Or.inl hmem
            · right
              rw [hfields.1, hfields.2]
              exact ⟨rfl, rfl⟩

/-- Witness for `persist_on_read_guards`: a result with no `period_end`
leaves the store untouched. -/
theorem persist_on_read_guards_witness :
    upsertPeriodMetric [] "bCAS (Q4 Adj)"
      ⟨none, some 5, some 7, none, none, none, none⟩ 3 = [] :=
  (persist_on_read_guards [] "bCAS (Q4 Adj)"
    ⟨none, some 5, some 7, none, none, none, none⟩ 3).1 (Or.inl rfl)

/-- C6 (amended): both ingestion paths key every record by
`date(dt.year, dt.month, monthrange(...)[1])`, a month-end; the persist-on-
read path produces a month-end for `YYYY-MM` period ends, but stores a
`YYYY-MM-DD` period end as the supplied calendar date, unchanged. -/
theorem period_store_month_end_paths :
    (∀ dt : CalDate, isMonthEnd (ingestAsOfKey dt)) ∧
    (∀ (pe : String) (d : CalDate),
      (pe.length = 7 ∧ pe.data.getD 4 ' ' = '-') →
      periodEndToAsOf pe = some d → isMonthEnd d) ∧
    (∀ (pe : String) (d : CalDate),
      ¬(pe.length = 7 ∧ pe.data.getD 4 ' ' = '-') →
      periodEndToAsOf pe = some d → parseIsoDate pe = some d) := by
  refine ⟨fun dt => rfl, ?_, ?_⟩
  · intro pe d hcond h
    unfold periodEndToAsOf at h
    rw [if_pos hcond] at h
    cases hy : digitsToNat? (strSlice pe 0 4).data with
    | none => simp [hy] at h
    | some y =>
      cases hm : digitsToNat? (strSlice pe 5 7).data with
      | none => simp [hy, hm] at h
      | some m =>
        simp only [hy, hm] at h
        by_cases hmr : 1 ≤ m ∧ m ≤ 12
        · rw [if_pos hmr] at h
          cases h
          unfold isMonthEnd
          by_cases hm12 : m = 12
          · subst hm12
            simp [daysInMonth]
          · simp only [if_neg hm12]
        · rw [if_neg hmr] at h
          cases h
  · intro pe d hcond h
    unfold periodEndToAsOf at h
    rw [if_neg hcond] at h
    exact h

/-- Witness for `period_store_month_end_paths`: the `YYYY-MM` path on
"2024-06" stores 2024-06-30, a month-end. -/
theorem period_store_month_end_paths_witness :
    isMonthEnd (⟨2024, 6, 30⟩ : CalDate) :=
  period_store_month_end_paths.2.1 "2024-06" ⟨2024, 6, 30⟩ (by decide) rfl

/-- C6 counterexample: overview persist-on-read with
`period_end = "2024-06-15"` stores a record whose `as_of_date` is
2024-06-15 — not the last calendar day of its month. -/
theorem period_store_midmonth_asof_counterexample :
    upsertPeriodMetric [] "bCAS (Q4 Adj)"
        ⟨some "2024-06-15", some 5, some 7, none, none, none, none⟩ 0 =
      [⟨"bCAS (Q4 Adj)", ⟨2024, 6, 15⟩, some 5, some 7, none, none, none,
        "overview", 0, 0⟩] ∧
    ¬ isMonthEnd (⟨2024, 6, 15⟩ : CalDate) := by
  exact ⟨rfl, by decide⟩

/-- C9: the serial→date map is `epoch + s` days, hence `toSerial` round-trips;
out-of-range numerics (including the bounds themselves) are rejected; and a
fractional part does not change the calendar date. -/
theorem excel_serial_roundtrip (s : ℤ) (h₁ : 20000 < s) (h₂ : s < 90000) :
    maybe_excel_serial (s : ℚ) = some (excelEpoch + s) ∧
    (∀ d : ℤ, maybe_excel_serial (s : ℚ) = some d → toSerial d = s) ∧
    (∀ f : ℚ, 0 ≤ f → f < 1 →
      maybe_excel_serial ((s : ℚ) + f) = maybe_excel_serial (s : ℚ) ∧
      parse_excel_date_num ((s : ℚ) + f) = parse_excel_date_num (s : ℚ)) ∧
    (∀ q : ℚ, q ≤ 20000 ∨ 90000 ≤ q → maybe_excel_serial q = none) := by
  have hs₁ : (20000 : ℚ) < (s : ℚ) := by exact_mod_cast h₁
  have hs₂ : (s : ℚ) < 90000 := by exact_mod_cast h₂
  have hfloor : ⌊(s : ℚ)⌋ = s := Int.floor_intCast s
  refine ⟨?_, ?_, ?_, ?_⟩
  · simp [maybe_excel_serial, hs₁, hs₂, hfloor]
  · intro d hd
    simp [maybe_excel_serial, hs₁, hs₂, hfloor] at hd
    simp [toSerial, ← hd]
  · intro f hf₀ hf₁
    have hq₁ : (20000 : ℚ) < (s : ℚ) + f := by linarith
    have hq₂ : (s : ℚ) + f < 90000 := by
      have : (s : ℚ) + 1 ≤ 90000 := by exact_mod_cast h₂
      linarith
    have hfl : ⌊(s : ℚ) + f⌋ = s := by
      rw [add_comm, Int.floor_add_int, Int.floor_eq_zero_iff.2 ⟨hf₀, hf₁⟩]
      ring
    constructor
    · simp [maybe_excel_serial, hs₁, hs₂, hq₁, hq₂, hfloor, hfl]
    · simp [parse_excel_date_num, hs₁, hs₂, hq₁, hq₂, hfloor, hfl]
  · intro q hq
    rcases hq with hq | hq
    · simp [maybe_excel_serial]
      intro h; linarith
    · simp [maybe_excel_serial]
      intro h; linarith

/-- C1: when `initial` is non-null and nonzero, MOIC is `current/initial`
and ROI% is `(current - initial)/initial * 100`; both (and IRR%) are null
when `initial` is null or zero; IRR% is null whenever `initial ≤ 0` or the
span is non-positive, and otherwise equals
`((current/initial) ^ (1/years) - 1) * 100` with `years = days/365.25`. -/
theorem financial_metrics_formulas (initial : Option ℚ) (current : ℚ) (sD eD : CalDate) :
    (∀ i : ℚ, initial = some i → i ≠ 0 →
      (fastOverviewMetrics initial current sD eD).moic = some (current / i) ∧
      (fastOverviewMetrics initial current sD eD).roi_pct =
        some ((current - i) / i * 100)) ∧
    (initial = none ∨ initial = some 0 →
      (fastOverviewMetrics initial current sD eD).moic = none ∧
      (fastOverviewMetrics initial current sD eD).roi_pct = none ∧
      (fastOverviewMetrics initial current sD eD).irr_pct = none) ∧
    (∀ i : ℚ, i ≤ 0 ∨ dateDiffDays eD sD ≤ 0 → irr_from_span i current sD eD = none) ∧
    (∀ i : ℚ, 0 < i → 0 < dateDiffDays eD sD →
      irr_from_span i current sD eD =
        some ((((current : ℝ) / (i : ℝ)) ^
          ((1 : ℝ) / (((dateDiffDays eD sD : ℚ) / 365.25 : ℚ) : ℝ)) - 1) * 100)) := by
  refine ⟨?_, ?_, ?_, ?_⟩
  · rintro i rfl hne
    refine ⟨by simp [fastOverviewMetrics, hne], ?_⟩
    simp only [fastOverviewMetrics, if_pos hne]
    congr 1
    field_simp
  · rintro (rfl | rfl) <;> simp [fastOverviewMetrics]
  · intro i h
    unfold irr_from_span
    rcases h with h | h
    · simp [h]
    · rcases le_or_lt i 0 with hi | hi
      · simp [hi]
      · have hd : ((dateDiffDays eD sD : ℚ) / 365.25) ≤ 0 := by
          apply div_nonpos_of_nonpos_of_nonneg
          · exact_mod_cast h
          · norm_num
        rw [if_neg (by push_neg; constructor <;> linarith), if_pos (by simp [hd])]
  · intro i hi hd
    unfold irr_from_span
    have hq : (0 : ℚ) < (dateDiffDays eD sD : ℚ) / 365.25 := by
      apply div_pos
      · exact_mod_cast hd
      · norm_num
    have hmax : max ((dateDiffDays eD sD : ℚ) / 365.25) 0 =
        (dateDiffDays eD sD : ℚ) / 365.25 := max_eq_left hq.le
    rw [if_neg (by push_neg; constructor <;> linarith), hmax, if_neg (by linarith)]

/-- Witness for `financial_metrics_formulas`: initial 200, current 250 over
a one-year span gives MOIC 1.25 and ROI 25%. -/
theorem financial_metrics_formulas_witness :
    (fastOverviewMetrics (some 200) 250 ⟨2024, 1, 1⟩ ⟨2025, 1, 1⟩).moic = some (5 / 4) ∧
    (fastOverviewMetrics (some 200) 250 ⟨2024, 1, 1⟩ ⟨2025, 1, 1⟩).roi_pct = some 25 := by
  have h := (financial_metrics_formulas (some 200) 250 ⟨2024, 1, 1⟩ ⟨2025, 1, 1⟩).1
    200 rfl (by norm_num)
  refine ⟨?_, ?_⟩
  · rw [h.1]; norm_num
  · rw [h.2]; norm_num

/-- C5 (amended): for every non-empty date list and any explicit period end,
the YTD window's end never exceeds the latest available date `dN`, and its
start is January 1 of the year of the coerced (pre-clamp) end — in
particular `period_end=2024-06-15` always resolves `start = 2024-01-01`.
(As stated the claim is false: the clamp runs after the start is computed,
see `basis_window_ytd_counterexample`.) -/
theorem basis_window_ytd (dates : List CalDate) (pe yq : Option String)
    (hne : dates ≠ []) :
    ∃ dN s e, listMaxD dates = some dN ∧
      boundsForBasis dates "ytd" pe yq = some (s, e) ∧
      dateLe e dN ∧
      s = ⟨(coercePeriodEnd dN pe dates yq).year, 1, 1⟩ ∧
      (pe = some "2024-06-15" → yq = none → s = ⟨2024, 1, 1⟩) := by
  cases dates with
  | nil => exact absurd rfl hne
  | cons x xs =>
    refine ⟨_, _, _, rfl, rfl, ?_, rfl, ?_⟩
    · generalize coercePeriodEnd _ pe (x :: xs) yq = e₀
      generalize xs.foldl (fun acc y => if dateLt acc y then y else acc) x = dN
      by_cases h : dateLt dN e₀
      · rw [if_pos h]
        exact dateLe_refl dN
      · rw [if_neg h]
        rw [dateLt_iff_not_le] at h
        exact not_not.1 h
    · rintro rfl rfl
      rfl

/-- Counterexample to C5 as stated: with only 2023-12-31 available and
`period_end=2024-06-15`, the returned window is
(start 2024-01-01, end 2023-12-31): the start is not January 1 of the
returned (clamped) end's year. -/
theorem basis_window_ytd_counterexample :
    boundsForBasis [⟨2023, 12, 31⟩] "ytd" (some "2024-06-15") none =
      some (⟨2024, 1, 1⟩, ⟨2023, 12, 31⟩) ∧
    (⟨2024, 1, 1⟩ : CalDate) ≠ ⟨(⟨2023, 12, 31⟩ : CalDate).year, 1, 1⟩ :=
  ⟨rfl, by decide⟩

/-- Witness for `basis_window_ytd` on dates spanning 2024 with
`period_end=2024-06-15`. -/
theorem basis_window_ytd_witness :
    ∃ dN s e,
      listMaxD [(⟨2024, 1, 31⟩ : CalDate), ⟨2024, 6, 30⟩] = some dN ∧
      boundsForBasis [(⟨2024, 1, 31⟩ : CalDate), ⟨2024, 6, 30⟩] "ytd"
        (some "2024-06-15") none = some (s, e) ∧
      dateLe e dN ∧
      s = ⟨(coercePeriodEnd dN (some "2024-06-15")
        [(⟨2024, 1, 31⟩ : CalDate), ⟨2024, 6, 30⟩] none).year, 1, 1⟩ ∧
      (some "2024-06-15" = some "2024-06-15" → (none : Option String) = none →
        s = ⟨2024, 1, 1⟩) :=
  basis_window_ytd [⟨2024, 1, 31⟩, ⟨2024, 6, 30⟩] (some "2024-06-15") none
    (by decide)

theorem sumRowsAux_eq (values : Grid) (limit dateCol nameCol idCol maxBlank : ℕ) :
    ∀ (r blanks : ℕ) (total : ℚ) (acc : Bool),
      sumRowsAux values limit dateCol nameCol idCol maxBlank r blanks total acc =
        (if acc = true ∨
            contribAux values limit dateCol nameCol idCol maxBlank r blanks ≠ [] then
          some (total +
            ((contribAux values limit dateCol nameCol idCol maxBlank r blanks).map
              Prod.snd).sum)
        else none) := by
  intro r blanks
  induction r, blanks using contribAux.induct values limit dateCol nameCol idCol maxBlank with
  | case1 r blanks h h2 ih =>
    intro total acc
    have hc : contribAux values limit dateCol nameCol idCol maxBlank r blanks =
        contribAux values limit dateCol nameCol idCol maxBlank (r + 1) 0 := by
      rw [contribAux]
      simp only [dif_pos h, if_pos h2]
    have hs : sumRowsAux values limit dateCol nameCol idCol maxBlank r blanks total acc =
        sumRowsAux values limit dateCol nameCol idCol maxBlank (r + 1) 0 total acc := by
      rw [sumRowsAux]
      simp only [dif_pos h, if_pos h2]
    rw [hs, hc, ih]
  | case2 r blanks h h2 h3 q heq ih =>
    intro total acc
    have hc : contribAux values limit dateCol nameCol idCol maxBlank r blanks =
        (r, q) :: contribAux values limit dateCol nameCol idCol maxBlank (r + 1) 0 := by
      rw [contribAux]
      simp only [dif_pos h, if_neg h2, if_pos h3, heq]
    have hs : sumRowsAux values limit dateCol nameCol idCol maxBlank r blanks total acc =
        sumRowsAux values limit dateCol nameCol idCol maxBlank (r + 1) 0 (total + q) true := by
      rw [sumRowsAux]
      simp only [dif_pos h, if_neg h2, if_pos h3, heq]
    rw [hs, hc, ih]
    simp only [true_or, if_pos, List.map_cons, List.sum_cons, ne_eq,
      List.cons_ne_nil, not_false_eq_true, or_true]
    rw [add_assoc]
  | case3 r blanks h h2 h3 heq ih =>
    intro total acc
    have hc : contribAux values limit dateCol nameCol idCol maxBlank r blanks =
        contribAux values limit dateCol nameCol idCol maxBlank (r + 1) 0 := by
      rw [contribAux]
      simp only [dif_pos h, if_neg h2, if_pos h3, heq]
    have hs : sumRowsAux values limit dateCol nameCol idCol maxBlank r blanks total acc =
        sumRowsAux values limit dateCol nameCol idCol maxBlank (r + 1) 0 total acc := by
      rw [sumRowsAux]
      simp only [dif_pos h, if_neg h2, if_pos h3, heq]
    rw [hs, hc, ih]
  | case4 r blanks h h2 h3 h4 =>
    intro total acc
    have hc : contribAux values limit dateCol nameCol idCol maxBlank r blanks = [] := by
      rw [contribAux]
      simp only [dif_pos h, if_neg h2, if_neg h3, if_pos h4]
    have hs : sumRowsAux values limit dateCol nameCol idCol maxBlank r blanks total acc =
        (if acc then some total else none) := by
      rw [sumRowsAux]
      simp only [dif_pos h, if_neg h2, if_neg h3, if_pos h4]
    rw [hs, hc]
    cases acc <;> simp
  | case5 r blanks h h2 h3 h4 ih =>
    intro total acc
    have hc : contribAux values limit dateCol nameCol idCol maxBlank r blanks =
        contribAux values limit dateCol nameCol idCol maxBlank (r + 1) (blanks + 1) := by
      rw [contribAux]
      simp only [dif_pos h, if_neg h2, if_neg h3, if_neg h4]
    have hs : sumRowsAux values limit dateCol nameCol idCol maxBlank r blanks total acc =
        sumRowsAux values limit dateCol nameCol idCol maxBlank (r + 1) (blanks + 1) total acc := by
      rw [sumRowsAux]
      simp only [dif_pos h, if_neg h2, if_neg h3, if_neg h4]
    rw [hs, hc, ih]
  | case6 r blanks h =>
    intro total acc
    have hc : contribAux values limit dateCol nameCol idCol maxBlank r blanks = [] := by
      rw [contribAux]
      simp only [dif_neg h]
    have hs : sumRowsAux values limit dateCol nameCol idCol maxBlank r blanks total acc =
        (if acc then some total else none) := by
      rw [sumRowsAux]
      simp only [dif_neg h]
    rw [hs, hc]
    cases acc <;> simp

theorem contribAux_sound (values : Grid) (limit dateCol nameCol idCol maxBlank : ℕ) :
    ∀ (r blanks : ℕ),
      ∀ p ∈ contribAux values limit dateCol nameCol idCol maxBlank r blanks,
        r ≤ p.1 ∧ p.1 < limit ∧ p.1 ≤ values.length ∧
        cellCleanTxt (cellAt values p.1 nameCol) ∉ FORBIDDEN ∧
        (cellCleanTxt (cellAt values p.1 nameCol) ≠ "" ∨
          idNonempty (cellAt values p.1 idCol) = true) ∧
        toFloatCell (cellAt values p.1 dateCol) = some p.2 := by
  intro r blanks
  induction r, blanks using contribAux.induct values limit dateCol nameCol idCol maxBlank with
  | case1 r blanks h h2 ih =>
    intro p hp
    rw [contribAux] at hp
    simp only [dif_pos h, if_pos h2] at hp
    have := ih p hp
    exact ⟨by omega, this.2⟩
  | case2 r blanks h h2 h3 q heq ih =>
    intro p hp
    rw [contribAux] at hp
    simp only [dif_pos h, if_neg h2, if_pos h3, heq] at hp
    rcases List.mem_cons.1 hp with hph | hpt
    · subst hph
      exact ⟨le_refl r, h.1, h.2, h2, h3, heq⟩
    · have := ih p hpt
      exact ⟨by omega, this.2⟩
  | case3 r blanks h h2 h3 heq ih =>
    intro p hp
    rw [contribAux] at hp
    simp only [dif_pos h, if_neg h2, if_pos h3, heq] at hp
    have := ih p hp
    exact ⟨by omega, this.2⟩
  | case4 r blanks h h2 h3 h4 =>
    intro p hp
    rw [contribAux] at hp
    simp only [dif_pos h, if_neg h2, if_neg h3, if_pos h4] at hp
    exact absurd hp (List.not_mem_nil p)
  | case5 r blanks h h2 h3 h4 ih =>
    intro p hp
    rw [contribAux] at hp
    simp only [dif_pos h, if_neg h2, if_neg h3, if_neg h4] at hp
    have := ih p hp
    exact ⟨by omega, this.2⟩
  | case6 r blanks h =>
    intro p hp
    rw [contribAux] at hp
    simp only [dif_neg h] at hp
    exact absurd hp (List.not_mem_nil p)

theorem contribAux_blankrun_nil (values : Grid)
    (limit dateCol nameCol idCol maxBlank : ℕ) (r0 : ℕ) (hmb : 1 ≤ maxBlank)
    (hblank : ∀ i < maxBlank, blankRow values nameCol idCol (r0 + i)) :
    ∀ (r blanks : ℕ), r0 ≤ r → r ≤ r0 + maxBlank - 1 → r - r0 ≤ blanks →
      contribAux values limit dateCol nameCol idCol maxBlank r blanks = [] := by
  intro r blanks
  induction r, blanks using contribAux.induct values limit dateCol nameCol idCol maxBlank with
  | case1 r blanks h h2 ih =>
    intro hr1 hr2 hr3
    have hb := hblank (r - r0) (by omega)
    rw [show r0 + (r - r0) = r from by omega] at hb
    rw [hb.1] at h2
    exact absurd h2 (by decide)
  | case2 r blanks h h2 h3 q heq ih =>
    intro hr1 hr2 hr3
    have hb := hblank (r - r0) (by omega)
    rw [show r0 + (r - r0) = r from by omega] at hb
    rcases h3 with h3 | h3
    · exact absurd hb.1 h3
    · rw [hb.2] at h3
      exact absurd h3 (by decide)
  | case3 r blanks h h2 h3 heq ih =>
    intro hr1 hr2 hr3
    have hb := hblank (r - r0) (by omega)
    rw [show r0 + (r - r0) = r from by omega] at hb
    rcases h3 with h3 | h3
    · exact absurd hb.1 h3
    · rw [hb.2] at h3
      exact absurd h3 (by decide)
  | case4 r blanks h h2 h3 h4 =>
    intro _ _ _
    rw [contribAux]
    simp only [dif_pos h, if_neg h2, if_neg h3, if_pos h4]
  | case5 r blanks h h2 h3 h4 ih =>
    intro hr1 hr2 hr3
    rw [contribAux]
    simp only [dif_pos h, if_neg h2, if_neg h3, if_neg h4]
    exact ih (by omega) (by omega) (by omega)
  | case6 r blanks h =>
    intro _ _ _
    rw [contribAux]
    simp only [dif_neg h]

theorem contribAux_stop (values : Grid)
    (limit dateCol nameCol idCol maxBlank : ℕ) (r0 : ℕ) (hmb : 1 ≤ maxBlank)
    (hblank : ∀ i < maxBlank, blankRow values nameCol idCol (r0 + i)) :
    ∀ (r blanks : ℕ), r ≤ r0 →
      ∀ p ∈ contribAux values limit dateCol nameCol idCol maxBlank r blanks,
        p.1 < r0 := by
  intro r blanks
  induction r, blanks using contribAux.induct values limit dateCol nameCol idCol maxBlank with
  | case1 r blanks h h2 ih =>
    intro hr p hp
    rcases Nat.lt_or_ge r r0 with hlt | hge
    · rw [contribAux] at hp
      simp only [dif_pos h, if_pos h2] at hp
      exact ih (by omega) p hp
    · have hr0 : r = r0 := by omega
      subst hr0
      have hb := hblank 0 (by omega)
      rw [Nat.add_zero] at hb
      rw [hb.1] at h2
      exact absurd h2 (by decide)
  | case2 r blanks h h2 h3 q heq ih =>
    intro hr p hp
    rcases Nat.lt_or_ge r r0 with hlt | hge
    · rw [contribAux] at hp
      simp only [dif_pos h, if_neg h2, if_pos h3, heq] at hp
      rcases List.mem_cons.1 hp with hph | hpt
      · subst hph
        exact hlt
      · exact ih (by omega) p hpt
    · have hr0 : r = r0 := by omega
      subst hr0
      have hb := hblank 0 (by omega)
      rw [Nat.add_zero] at hb
      rcases h3 with h3 | h3
      · exact absurd hb.1 h3
      · rw [hb.2] at h3
        exact absurd h3 (by decide)
  | case3 r blanks h h2 h3 heq ih =>
    intro hr p hp
    rcases Nat.lt_or_ge r r0 with hlt | hge
    · rw [contribAux] at hp
      simp only [dif_pos h, if_neg h2, if_pos h3, heq] at hp
      exact ih (by omega) p hp
    · have hr0 : r = r0 := by omega
      subst hr0
      have hb := hblank 0 (by omega)
      rw [Nat.add_zero] at hb
      rcases h3 with h3 | h3
      · exact absurd hb.1 h3
      · rw [hb.2] at h3
        exact absurd h3 (by decide)
  | case4 r blanks h h2 h3 h4 =>
    intro hr p hp
    rw [contribAux] at hp
    simp only [dif_pos h, if_neg h2, if_neg h3, if_pos h4] at hp
    exact absurd hp (List.not_mem_nil p)
  | case5 r blanks h h2 h3 h4 ih =>
    intro hr p hp
    rw [contribAux] at hp
    simp only [dif_pos h, if_neg h2, if_neg h3, if_neg h4] at hp
    rcases Nat.lt_or_ge r r0 with hlt | hge
    · exact ih (by omega) p hp
    · have hr0 : r = r0 := by omega
      subst hr0
      rw [contribAux_blankrun_nil values limit dateCol nameCol idCol maxBlank r hmb
        hblank (r + 1) (blanks + 1) (by omega) (by omega) (by omega)] at hp
      exact absurd hp (List.not_mem_nil p)
  | case6 r blanks h =>
    intro hr p hp
    rw [contribAux] at hp
    simp only [dif_neg h] at hp
    exact absurd hp (List.not_mem_nil p)

theorem contribAux_complete (values : Grid)
    (limit dateCol nameCol idCol maxBlank : ℕ) (rt : ℕ) (q : ℚ)
    (hrtlim : rt < limit) (hrtlen : rt ≤ values.length)
    (hforb : cellCleanTxt (cellAt values rt nameCol) ∉ FORBIDDEN)
    (hpart : cellCleanTxt (cellAt values rt nameCol) ≠ "" ∨
      idNonempty (cellAt values rt idCol) = true)
    (hq : toFloatCell (cellAt values rt dateCol) = some q) :
    ∀ (r blanks : ℕ), r ≤ rt → blanks < r →
      (∀ i < blanks, blankRow values nameCol idCol (r - 1 - i)) →
      (∀ r0, r - blanks ≤ r0 → r0 + maxBlank ≤ rt →
        ∃ i < maxBlank, ¬ blankRow values nameCol idCol (r0 + i)) →
      (rt, q) ∈ contribAux values limit dateCol nameCol idCol maxBlank r blanks := by
  intro r blanks
  induction r, blanks using contribAux.induct values limit dateCol nameCol idCol maxBlank with
  | case1 r blanks h h2 ih =>
    intro hr hbr hstreak hrun
    rcases Nat.lt_or_ge r rt with hlt | hge
    · rw [contribAux]
      simp only [dif_pos h, if_pos h2]
      refine ih (by omega) (by omega) (by omega) ?_
      intro r0 h1 h2'
      exact hrun r0 (by omega) h2'
    · have hrt : r = rt := by omega
      subst hrt
      exact absurd h2 hforb
  | case2 r blanks h h2 h3 q' heq ih =>
    intro hr hbr hstreak hrun
    rw [contribAux]
    simp only [dif_pos h, if_neg h2, if_pos h3, heq]
    rcases Nat.lt_or_ge r rt with hlt | hge
    · refine List.mem_cons_of_mem _ (ih (by omega) (by omega) (by omega) ?_)
      intro r0 h1 h2'
      exact hrun r0 (by omega) h2'
    · have hrt : r = rt := by omega
      subst hrt
      rw [hq] at heq
      cases heq
      exact List.mem_cons_self _ _
  | case3 r blanks h h2 h3 heq ih =>
    intro hr hbr hstreak hrun
    rcases Nat.lt_or_ge r rt with hlt | hge
    · rw [contribAux]
      simp only [dif_pos h, if_neg h2, if_pos h3, heq]
      refine ih (by omega) (by omega) (by omega) ?_
      intro r0 h1 h2'
      exact hrun r0 (by omega) h2'
    · have hrt : r = rt := by omega
      subst hrt
      rw [hq] at heq
      cases heq
  | case4 r blanks h h2 h3 h4 =>
    intro hr hbr hstreak hrun
    have h3' := h3
    push_neg at h3'
    have hblk : blankRow values nameCol idCol r := ⟨h3'.1, by simpa using h3'.2⟩
    rcases Nat.lt_or_ge r rt with hlt | hge
    · exfalso
      obtain ⟨i, hi, hnb⟩ := hrun (r + 1 - maxBlank) (by omega) (by omega)
      apply hnb
      rcases Nat.lt_or_ge (r + 1 - maxBlank + i) r with hx | hx
      · have hidx := hstreak (r - 1 - (r + 1 - maxBlank + i)) (by omega)
        rw [show r - 1 - (r - 1 - (r + 1 - maxBlank + i)) =
          r + 1 - maxBlank + i from by omega] at hidx
        exact hidx
      · have hxr : r + 1 - maxBlank + i = r := by omega
        rw [hxr]
        exact hblk
    · have hrt : r = rt := by omega
      subst hrt
      exact absurd hpart h3
  | case5 r blanks h h2 h3 h4 ih =>
    intro hr hbr hstreak hrun
    have h3' := h3
    push_neg at h3'
    have hblk : blankRow values nameCol idCol r := ⟨h3'.1, by simpa using h3'.2⟩
    rcases Nat.lt_or_ge r rt with hlt | hge
    · rw [contribAux]
      simp only [dif_pos h, if_neg h2, if_neg h3, if_neg h4]
      refine ih (by omega) (by omega) ?_ ?_
      · intro i hi
        cases i with
        | zero => simpa using hblk
        | succ j =>
          have hidx := hstreak j (by omega)
          rw [show r + 1 - 1 - (j + 1) = r - 1 - j from by omega]
          exact hidx
      · intro r0 h1 h2'
        exact hrun r0 (by omega) h2'
    · have hrt : r = rt := by omega
      subst hrt
      exact absurd hpart h3
  | case6 r blanks h =>
    intro hr hbr hstreak hrun
    exact absurd ⟨by omega, by omega⟩ h

/-- C4: the aggregation result is null exactly when no value was ever
accumulated, else the sum of the accumulated values (`contribs`); every
accumulated row lies strictly below the label row, before the stop row,
inside the grid, is not a forbidden subtotal row, has a name or identifier,
and contributes exactly its parsed cell; nothing at or beyond a run of
`max_blank_streak` blank rows is accumulated; and every qualifying row not
cut off by such a blank run is accumulated. -/
theorem period_aggregator_correct (values : Grid) (startLabelRow dateCol : ℕ)
    (stopRow : Option ℕ) (nameCol idCol maxBlank : ℕ) :
    (sum_investor_rows_ignore_total values startLabelRow dateCol stopRow nameCol
        idCol maxBlank =
      if contribs values startLabelRow dateCol stopRow nameCol idCol maxBlank = []
      then none
      else some (((contribs values startLabelRow dateCol stopRow nameCol idCol
        maxBlank).map Prod.snd).sum)) ∧
    (∀ p ∈ contribs values startLabelRow dateCol stopRow nameCol idCol maxBlank,
      startLabelRow < p.1 ∧ p.1 < stopLimit values stopRow ∧
      p.1 ≤ values.length ∧
      cellCleanTxt (cellAt values p.1 nameCol) ∉ FORBIDDEN ∧
      (cellCleanTxt (cellAt values p.1 nameCol) ≠ "" ∨
        idNonempty (cellAt values p.1 idCol) = true) ∧
      toFloatCell (cellAt values p.1 dateCol) = some p.2) ∧
    (∀ r0, 1 ≤ maxBlank → startLabelRow < r0 →
      (∀ i < maxBlank, blankRow values nameCol idCol (r0 + i)) →
      ∀ p ∈ contribs values startLabelRow dateCol stopRow nameCol idCol maxBlank,
        p.1 < r0) ∧
    (∀ (rt : ℕ) (q : ℚ), startLabelRow < rt → rt < stopLimit values stopRow →
      rt ≤ values.length →
      cellCleanTxt (cellAt values rt nameCol) ∉ FORBIDDEN →
      (cellCleanTxt (cellAt values rt nameCol) ≠ "" ∨
        idNonempty (cellAt values rt idCol) = true) →
      toFloatCell (cellAt values rt dateCol) = some q →
      (∀ r0, startLabelRow < r0 → r0 + maxBlank ≤ rt →
        ∃ i < maxBlank, ¬ blankRow values nameCol idCol (r0 + i)) →
      (rt, q) ∈ contribs values startLabelRow dateCol stopRow nameCol idCol
        maxBlank) := by
  refine ⟨?_, ?_, ?_, ?_⟩
  · unfold sum_investor_rows_ignore_total contribs
    rw [sumRowsAux_eq]
    by_cases hC : contribAux values (stopLimit values stopRow) dateCol nameCol idCol
        maxBlank (startLabelRow + 1) 0 = []
    · simp [hC]
    · simp [hC]
  · intro p hp
    have h := contribAux_sound values (stopLimit values stopRow) dateCol nameCol
      idCol maxBlank (startLabelRow + 1) 0 p hp
    exact ⟨by omega, h.2⟩
  · intro r0 hmb hr0 hblank p hp
    exact contribAux_stop values (stopLimit values stopRow) dateCol nameCol idCol
      maxBlank r0 hmb hblank (startLabelRow + 1) 0 (by omega) p hp
  · intro rt q hrt hlim hlen hforb hpart hq hrun
    exact contribAux_complete values (stopLimit values stopRow) dateCol nameCol
      idCol maxBlank rt q hlim hlen hforb hpart hq (startLabelRow + 1) 0
      (by omega) (by omega) (by omega)
      (fun r0 h1 h2 => hrun r0 (by omega) h2)

/-- Witness for `period_aggregator_correct`: on a grid with an investor row,
a Total row and a second investor row, the qualifying row 2 ("Fund A",
value 1000) is accumulated. -/
theorem period_aggregator_correct_witness :
    ((2 : ℕ), (1000 : ℚ)) ∈ contribs
      [[Cell.num 7, Cell.str "Investors"],
       [Cell.num 1, Cell.str "Fund A", Cell.num 1000],
       [Cell.empty, Cell.str "Total", Cell.num 9999],
       [Cell.empty, Cell.str "Fund B", Cell.num 500]] 1 3 none 2 1 50 :=
  (period_aggregator_correct
    [[Cell.num 7, Cell.str "Investors"],
     [Cell.num 1, Cell.str "Fund A", Cell.num 1000],
     [Cell.empty, Cell.str "Total", Cell.num 9999],
     [Cell.empty, Cell.str "Fund B", Cell.num 500]] 1 3 none 2 1 50).2.2.2
    2 1000 (by decide) (by decide) (by decide) (by decide) (by decide)
    (by decide) (by intro r0 h1 h2; omega)

theorem selectMinBy_foldl_mem {α : Type _} (key : α → ℤ ×ₗ ℤ) (xs : List α) :
    ∀ x : α, xs.foldl (fun acc y => if key y < key acc then y else acc) x = x ∨
      xs.foldl (fun acc y => if key y < key acc then y else acc) x ∈ xs := by
  induction xs with
  | nil => intro x; exact Or.inl rfl
  | cons y ys ih =>
    intro x
    rw [List.foldl_cons]
    rcases ih (if key y < key x then y else x) with h | h
    · rw [h]
      split
      · exact Or.inr (List.mem_cons_self _ _)
      · exact Or.inl rfl
    · exact Or.inr (List.mem_cons_of_mem _ h)

theorem selectMinBy_foldl_le {α : Type _} (key : α → ℤ ×ₗ ℤ) (xs : List α) :
    ∀ x z, (z = x ∨ z ∈ xs) →
      key (xs.foldl (fun acc y => if key y < key acc then y else acc) x) ≤ key z := by
  induction xs with
  | nil =>
    intro x z hz
    rcases hz with rfl | hz
    · exact le_refl _
    · exact absurd hz (List.not_mem_nil z)
  | cons y ys ih =>
    intro x z hz
    rw [List.foldl_cons]
    have hstep_le_x : key (if key y < key x then y else x) ≤ key x := by
      split
      · next hlt => exact le_of_lt hlt
      · exact le_refl _
    have hstep_le_y : key (if key y < key x then y else x) ≤ key y := by
      split
      · exact le_refl _
      · next hlt => exact le_of_not_lt hlt
    have hres := ih (if key y < key x then y else x)
    rcases hz with rfl | hz
    · exact le_trans (hres _ (Or.inl rfl)) hstep_le_x
    · rcases List.mem_cons.1 hz with rfl | hz
      · exact le_trans (hres _ (Or.inl rfl)) hstep_le_y
      · exact hres z (Or.inr hz)

theorem selectMinBy_mem {α : Type _} {key : α → ℤ ×ₗ ℤ} {l : List α} {x : α}
    (h : selectMinBy key l = some x) : x ∈ l := by
  cases l with
  | nil => cases h
  | cons y ys =>
    unfold selectMinBy at h
    cases h
    rcases selectMinBy_foldl_mem key ys y with h | h
    · rw [h]; exact List.mem_cons_self _ _
    · exact List.mem_cons_of_mem _ h

theorem selectMinBy_le {α : Type _} {key : α → ℤ ×ₗ ℤ} {l : List α} {x : α}
    (h : selectMinBy key l = some x) : ∀ z ∈ l, key x ≤ key z := by
  cases l with
  | nil => cases h
  | cons y ys =>
    unfold selectMinBy at h
    cases h
    intro z hz
    rcases List.mem_cons.1 hz with h1 | h1
    · exact selectMinBy_foldl_le key ys y z (Or.inl h1)
    · exact selectMinBy_foldl_le key ys y z (Or.inr h1)

theorem headerCandidates_mem {values : Grid} {maxScanRows r : ℕ}
    {loc : List (ℕ × CalDate)}
    (h : (r, loc) ∈ headerCandidates values maxScanRows) :
    loc = rowDateCells values r (colsOf values) ∧ 2 ≤ loc.length ∧
    1 ≤ r ∧ r ≤ min values.length maxScanRows := by
  unfold headerCandidates at h
  rw [List.mem_filterMap] at h
  obtain ⟨r', hr', heq⟩ := h
  rw [List.mem_range'_1] at hr'
  split at heq
  · next hlen =>
    injection heq with heq
    injection heq with h1 h2
    subst h1
    subst h2
    exact ⟨rfl, hlen, by omega, by omega⟩
  · cases heq

/-- C7 (amended): the detector returns a header only when a candidate row
with ≥2 date cells exists (no sanity bound is applied to those dates — see
the counterexample); the returned row is such a candidate; with a nonzero
anchor and a candidate at-or-above it, it picks the candidate nearest to
and at-or-above the anchor; otherwise it picks the candidate with the most
date cells, tie-broken topmost; no candidate at-or-above the anchor falls
back to the global pick. -/
theorem header_detector_correct (values : Grid) (maxScanRows : ℕ) :
    (∀ anchor, headerCandidates values maxScanRows = [] →
      findHeaderRowAndDateColumns values maxScanRows anchor = none) ∧
    (∀ anchor r loc,
      findHeaderRowAndDateColumns values maxScanRows anchor = some (r, loc) →
      (r, loc) ∈ headerCandidates values maxScanRows ∧
      loc = rowDateCells values r (colsOf values) ∧ 2 ≤ loc.length) ∧
    (∀ a, a ≠ 0 → ∀ c0 ∈ headerCandidates values maxScanRows, c0.1 ≤ a →
      ∃ r loc,
        findHeaderRowAndDateColumns values maxScanRows (some a) = some (r, loc) ∧
        r ≤ a ∧ ∀ c ∈ headerCandidates values maxScanRows, c.1 ≤ a → c.1 ≤ r) ∧
    (headerCandidates values maxScanRows ≠ [] →
      ∃ r loc,
        findHeaderRowAndDateColumns values maxScanRows none = some (r, loc) ∧
        ∀ c ∈ headerCandidates values maxScanRows,
          c.2.length ≤ loc.length ∧ (c.2.length = loc.length → r ≤ c.1)) ∧
    (∀ a, (∀ c ∈ headerCandidates values maxScanRows, ¬ c.1 ≤ a) →
      findHeaderRowAndDateColumns values maxScanRows (some a) =
        findHeaderRowAndDateColumns values maxScanRows none) := by
  refine ⟨?_, ?_, ?_, ?_, ?_⟩
  · intro anchor h
    unfold findHeaderRowAndDateColumns
    rw [h]
  · intro anchor r loc hfind
    unfold findHeaderRowAndDateColumns at hfind
    cases hc : headerCandidates values maxScanRows with
    | nil => rw [hc] at hfind; cases hfind
    | cons c cs =>
      rw [hc] at hfind
      dsimp only at hfind
      suffices hsuf : (r, loc) ∈ c :: cs by
        have hmem : (r, loc) ∈ headerCandidates values maxScanRows := by
          rw [hc]; exact hsuf
        obtain ⟨h1, h2, _, _⟩ := headerCandidates_mem hmem
        exact ⟨hsuf, h1, h2⟩
      cases anchor with
      | none => exact selectMinBy_mem hfind
      | some a =>
        dsimp only at hfind
        by_cases ha : a ≠ 0
        · rw [if_pos ha] at hfind
          cases hf : (c :: cs).filter (fun x => x.1 ≤ a) with
          | nil => rw [hf] at hfind; exact selectMinBy_mem hfind
          | cons b bs =>
            rw [hf] at hfind
            have hm := selectMinBy_mem hfind
            rw [← hf] at hm
            exact List.mem_of_mem_filter hm
        · rw [if_neg ha] at hfind
          exact selectMinBy_mem hfind
  · intro a ha c0 hc0 hc0a
    unfold findHeaderRowAndDateColumns
    cases hc : headerCandidates values maxScanRows with
    | nil => rw [hc] at hc0; exact absurd hc0 (List.not_mem_nil c0)
    | cons c cs =>
      rw [hc] at hc0
      dsimp only
      rw [if_pos ha]
      cases hf : (c :: cs).filter (fun x => x.1 ≤ a) with
      | nil =>
        exfalso
        have hcf : c0 ∈ (c :: cs).filter (fun x => x.1 ≤ a) := by
          rw [List.mem_filter]
          exact ⟨hc0, by simpa using hc0a⟩
        rw [hf] at hcf
        exact absurd hcf (List.not_mem_nil c0)
      | cons b bs =>
        obtain ⟨x, hx⟩ : ∃ x, selectMinBy
            (fun x => toLex ((a : ℤ) - (x.1 : ℤ), -(x.2.length : ℤ))) (b :: bs) =
            some x := ⟨_, rfl⟩
        obtain ⟨xr, xloc⟩ := x
        refine ⟨xr, xloc, hx, ?_, ?_⟩
        · have hmem := selectMinBy_mem hx
          rw [← hf] at hmem
          have := List.mem_filter.1 hmem
          simpa using this.2
        · intro cc hcc hcca
          have hccf : cc ∈ (c :: cs).filter (fun x => x.1 ≤ a) := by
            rw [List.mem_filter]
            exact ⟨hcc, by simpa using hcca⟩
          rw [hf] at hccf
          have hle := selectMinBy_le hx cc hccf
          rw [Prod.Lex.le_iff] at hle
          rcases hle with hlt | ⟨heq, _⟩
          · simp only at hlt
            omega
          · simp only at heq
            omega
  · intro hne
    unfold findHeaderRowAndDateColumns
    cases hc : headerCandidates values maxScanRows with
    | nil => exact absurd hc hne
    | cons c cs =>
      dsimp only
      obtain ⟨x, hx⟩ : ∃ x, selectMinBy
          (fun x => toLex (-(x.2.length : ℤ), (x.1 : ℤ))) (c :: cs) = some x :=
        ⟨_, rfl⟩
      obtain ⟨xr, xloc⟩ := x
      refine ⟨xr, xloc, hx, ?_⟩
      intro cc hcc
      have hle := selectMinBy_le hx cc hcc
      rw [Prod.Lex.le_iff] at hle
      rcases hle with hlt | ⟨heq, hle2⟩
      · simp only at hlt
        refine ⟨by omega, fun hl => by omega⟩
      · simp only at heq hle2
        refine ⟨by omega, fun hl => by omega⟩
  · intro a hnone
    unfold findHeaderRowAndDateColumns
    cases hc : headerCandidates values maxScanRows with
    | nil => rfl
    | cons c cs =>
      dsimp only
      by_cases ha : a ≠ 0
      · rw [if_pos ha]
        cases hf : (c :: cs).filter (fun x => x.1 ≤ a) with
        | nil => rfl
        | cons b bs =>
          exfalso
          have hb : b ∈ (c :: cs).filter (fun x => x.1 ≤ a) := by
            rw [hf]; exact List.mem_cons_self _ _
          have hb2 := List.mem_filter.1 hb
          exact hnone b (by rw [hc]; exact hb2.1) (by simpa using hb2.2)
      · rw [if_neg ha]

/-- C7 counterexample to the "sane dates" wording: a row of two 1900 dates
(before the 2000-01-01 sanity lower bound, whatever the current time) is
accepted as the header row, although it contains no sane date cell. -/
theorem header_detector_sane_counterexample :
    findHeaderRowAndDateColumns
        [[Cell.date ⟨1900, 1, 5⟩, Cell.date ⟨1900, 2, 5⟩]] 200 none =
      some (1, [(1, ⟨1900, 1, 5⟩), (2, ⟨1900, 2, 5⟩)]) ∧
    ((rowDateCells [[Cell.date ⟨1900, 1, 5⟩, Cell.date ⟨1900, 2, 5⟩]] 1 2).filter
      (fun cd => decide (dateLe ⟨2000, 1, 1⟩ cd.2))).length = 0 :=
  ⟨rfl, rfl⟩

/-- Witness for `header_detector_correct`: with candidate rows 1 and 2 and
anchor 1, the detector picks the candidate at-or-above the anchor. -/
theorem header_detector_correct_witness :
    ∃ r loc, findHeaderRowAndDateColumns
        [[Cell.date ⟨2024, 1, 31⟩, Cell.date ⟨2024, 2, 29⟩],
         [Cell.date ⟨2024, 3, 31⟩, Cell.date ⟨2024, 4, 30⟩]] 200 (some 1) =
        some (r, loc) ∧ r ≤ 1 ∧
      ∀ c ∈ headerCandidates
          [[Cell.date ⟨2024, 1, 31⟩, Cell.date ⟨2024, 2, 29⟩],
           [Cell.date ⟨2024, 3, 31⟩, Cell.date ⟨2024, 4, 30⟩]] 200,
        c.1 ≤ 1 → c.1 ≤ r :=
  (header_detector_correct
    [[Cell.date ⟨2024, 1, 31⟩, Cell.date ⟨2024, 2, 29⟩],
     [Cell.date ⟨2024, 3, 31⟩, Cell.date ⟨2024, 4, 30⟩]] 200).2.2.1 1
    (by decide)
    (1, rowDateCells
      [[Cell.date ⟨2024, 1, 31⟩, Cell.date ⟨2024, 2, 29⟩],
       [Cell.date ⟨2024, 3, 31⟩, Cell.date ⟨2024, 4, 30⟩]] 1 2)
    (by decide) (by decide)

theorem metricForColumnExcelGo_none (values : Grid) (hr col : ℕ) :
    ∀ (fuel d : ℕ),
      (metricForColumnExcelGo values hr col fuel d = none ↔
        ∀ j < fuel, checkAbove values hr col (d + j) = none ∧
          checkBelow values hr col (d + j) = none) := by
  intro fuel
  induction fuel with
  | zero => intro d; simp [metricForColumnExcelGo]
  | succ n ih =>
    intro d
    rw [metricForColumnExcelGo]
    cases hA : checkAbove values hr col d with
    | some k =>
      dsimp only
      constructor
      · intro hc
        cases hc
      · intro hall
        have hcontra := (hall 0 (by omega)).1
        rw [Nat.add_zero] at hcontra
        rw [hA] at hcontra
        cases hcontra
    | none =>
      cases hB : checkBelow values hr col d with
      | some k =>
        dsimp only
        constructor
        · intro hc
          cases hc
        · intro hall
          have hcontra := (hall 0 (by omega)).2
          rw [Nat.add_zero] at hcontra
          rw [hB] at hcontra
          cases hcontra
      | none =>
        dsimp only
        rw [ih (d + 1)]
        constructor
        · intro hall j hj
          cases j with
          | zero => rw [Nat.add_zero]; exact ⟨hA, hB⟩
          | succ i =>
            have := hall i (by omega)
            rw [show d + 1 + i = d + (i + 1) from by omega] at this
            exact this
        · intro hall j hj
          have := hall (j + 1) (by omega)
          rw [show d + (j + 1) = d + 1 + j from by omega] at this
          exact this

theorem metricForColumnExcelGo_some (values : Grid) (hr col : ℕ) :
    ∀ (fuel d : ℕ) (k : MetricKey),
      metricForColumnExcelGo values hr col fuel d = some k →
      ∃ j < fuel,
        (∀ j' < j, checkAbove values hr col (d + j') = none ∧
          checkBelow values hr col (d + j') = none) ∧
        (checkAbove values hr col (d + j) = some k ∨
          (checkAbove values hr col (d + j) = none ∧
            checkBelow values hr col (d + j) = some k)) := by
  intro fuel
  induction fuel with
  | zero => intro d k hc; cases hc
  | succ n ih =>
    intro d k hc
    rw [metricForColumnExcelGo] at hc
    cases hA : checkAbove values hr col d with
    | some k' =>
      rw [hA] at hc
      cases hc
      exact ⟨0, by omega, by omega, by rw [Nat.add_zero]; exact Or.inl hA⟩
    | none =>
      rw [hA] at hc
      cases hB : checkBelow values hr col d with
      | some k' =>
        rw [hB] at hc
        cases hc
        exact ⟨0, by omega, by omega,
          by rw [Nat.add_zero]; exact Or.inr ⟨hA, hB⟩⟩
      | none =>
        rw [hB] at hc
        obtain ⟨j, hj, hprev, hhit⟩ := ih (d + 1) k hc
        refine ⟨j + 1, by omega, ?_, ?_⟩
        · intro j' hj'
          cases j' with
          | zero => rw [Nat.add_zero]; exact ⟨hA, hB⟩
          | succ i =>
            have := hprev i (by omega)
            rw [show d + 1 + i = d + (i + 1) from by omega] at this
            exact this
        · rw [show d + (j + 1) = d + 1 + j from by omega]
          exact hhit

theorem metricForColumnMetricsGo_none (values : Grid) (col : ℕ) :
    ∀ (fuel r : ℕ),
      (metricForColumnMetricsGo values col fuel r = none ↔
        ∀ j < fuel, 1 ≤ r - j →
          classifyCellMetrics (cellAt values (r - j) col) = none) := by
  intro fuel
  induction fuel with
  | zero => intro r; simp [metricForColumnMetricsGo]
  | succ n ih =>
    intro r
    rw [metricForColumnMetricsGo]
    by_cases hr : 1 ≤ r
    · rw [if_pos hr]
      cases hcl : classifyCellMetrics (cellAt values r col) with
      | some k =>
        simp only [iff_false]
        constructor
        · intro hc
          cases hc
        · intro hall
          have := hall 0 (by omega) (by omega)
          rw [Nat.sub_zero] at this
          rw [hcl] at this
          cases this
      | none =>
        simp only
        rw [ih (r - 1)]
        constructor
        · intro hall j hj hj1
          cases j with
          | zero => rw [Nat.sub_zero]; exact hcl
          | succ i =>
            have := hall i (by omega) (by omega)
            rw [show r - 1 - i = r - (i + 1) from by omega] at this
            exact this
        · intro hall j hj hj1
          have := hall (j + 1) (by omega) (by omega)
          rw [show r - (j + 1) = r - 1 - j from by omega] at this
          exact this
    · rw [if_neg hr]
      simp only [true_iff]
      intro j hj hj1
      omega

theorem metricForColumnMetricsGo_some (values : Grid) (col : ℕ) :
    ∀ (fuel r : ℕ) (k : MetricKey),
      metricForColumnMetricsGo values col fuel r = some k →
      ∃ j < fuel, 1 ≤ r - j ∧
        classifyCellMetrics (cellAt values (r - j) col) = some k ∧
        ∀ j' < j, classifyCellMetrics (cellAt values (r - j') col) = none := by
  intro fuel
  induction fuel with
  | zero => intro r k hc; cases hc
  | succ n ih =>
    intro r k hc
    rw [metricForColumnMetricsGo] at hc
    by_cases hr : 1 ≤ r
    · rw [if_pos hr] at hc
      cases hcl : classifyCellMetrics (cellAt values r col) with
      | some k' =>
        rw [hcl] at hc
        cases hc
        exact ⟨0, by omega, by omega, by rw [Nat.sub_zero]; exact hcl,
          by omega⟩
      | none =>
        rw [hcl] at hc
        obtain ⟨j, hj, hj1, hhit, hprev⟩ := ih (r - 1) k hc
        refine ⟨j + 1, by omega, by omega, ?_, ?_⟩
        · rw [show r - (j + 1) = r - 1 - j from by omega]
          exact hhit
        · intro j' hj'
          cases j' with
          | zero => rw [Nat.sub_zero]; exact hcl
          | succ i =>
            have := hprev i (by omega)
            rw [show r - 1 - i = r - (i + 1) from by omega] at this
            exact this
    · rw [if_neg hr] at hc
      cases hc

/-- C8 (amended): the excel-routes resolver examines the column at rows
`header_row - d .. header_row + d` for `d` expanding 0..12 and returns the
classification of the closest classifying cell (above preferred at equal
distance), null when nothing in the window classifies; the metrics-routes
resolver instead examines only rows `header_row` down to
`header_row - lookback` (10 at its call sites) and returns the nearest
at-or-above classification — it never looks below the header row (see the
counterexample). -/
theorem metric_column_resolver_correct (values : Grid) (hr col lookback : ℕ) :
    (metric_for_column_excel values hr col = none ↔
      ∀ d < 13, checkAbove values hr col d = none ∧
        checkBelow values hr col d = none) ∧
    (∀ k, metric_for_column_excel values hr col = some k →
      ∃ d < 13,
        (∀ d' < d, checkAbove values hr col d' = none ∧
          checkBelow values hr col d' = none) ∧
        (checkAbove values hr col d = some k ∨
          (checkAbove values hr col d = none ∧
            checkBelow values hr col d = some k))) ∧
    (metric_for_column_metrics values hr col lookback = none ↔
      ∀ j ≤ lookback, 1 ≤ hr - j →
        classifyCellMetrics (cellAt values (hr - j) col) = none) ∧
    (∀ k, metric_for_column_metrics values hr col lookback = some k →
      ∃ j ≤ lookback, 1 ≤ hr - j ∧
        classifyCellMetrics (cellAt values (hr - j) col) = some k ∧
        ∀ j' < j, classifyCellMetrics (cellAt values (hr - j') col) = none) := by
  refine ⟨?_, ?_, ?_, ?_⟩
  · unfold metric_for_column_excel
    rw [metricForColumnExcelGo_none]
    constructor
    · intro hall d hd
      have := hall d hd
      rwa [Nat.zero_add] at this
    · intro hall j hj
      have := hall j hj
      rwa [Nat.zero_add]
  · intro k hk
    unfold metric_for_column_excel at hk
    obtain ⟨j, hj, hprev, hhit⟩ := metricForColumnExcelGo_some values hr col 13 0 k hk
    rw [Nat.zero_add] at hhit
    refine ⟨j, hj, ?_, hhit⟩
    intro d' hd'
    have := hprev d' hd'
    rwa [Nat.zero_add] at this
  · unfold metric_for_column_metrics
    rw [metricForColumnMetricsGo_none]
    constructor
    · intro hall j hj
      exact hall j (by omega)
    · intro hall j hj
      exact hall j (by omega)
  · intro k hk
    unfold metric_for_column_metrics at hk
    obtain ⟨j, hj, hj1, hhit, hprev⟩ :=
      metricForColumnMetricsGo_some values col (lookback + 1) hr k hk
    exact ⟨j, by omega, hj1, hhit, hprev⟩

/-- C8 counterexample to the "examines header_row - d through
header_row + d" reading for the metrics-routes resolver: a label one row
below the header classifies (and the excel-routes resolver finds it), yet
the metrics-routes resolver returns null. -/
theorem metric_column_resolver_counterexample :
    metric_for_column_metrics [[Cell.str "x"], [Cell.str "Ending Balance"]]
        1 1 10 = none ∧
    metric_for_column_excel [[Cell.str "x"], [Cell.str "Ending Balance"]]
        1 1 = some MetricKey.ending ∧
    classifyCellMetrics
        (cellAt [[Cell.str "x"], [Cell.str "Ending Balance"]] 2 1) =
      some MetricKey.ending :=
  ⟨rfl, rfl, rfl⟩

/-- Witness for `metric_column_resolver_correct`: on a one-cell grid whose
header cell is "Ending Balance", the excel-routes resolver classifies it at
distance 0. -/
theorem metric_column_resolver_correct_witness :
    ∃ d < 13,
      (∀ d' < d, checkAbove [[Cell.str "Ending Balance"]] 1 1 d' = none ∧
        checkBelow [[Cell.str "Ending Balance"]] 1 1 d' = none) ∧
      (checkAbove [[Cell.str "Ending Balance"]] 1 1 d = some MetricKey.ending ∨
        (checkAbove [[Cell.str "Ending Balance"]] 1 1 d = none ∧
          checkBelow [[Cell.str "Ending Balance"]] 1 1 d =
            some MetricKey.ending)) :=
  (metric_column_resolver_correct [[Cell.str "Ending Balance"]] 1 1 10).2.1
    MetricKey.ending rfl

/-- Witness for `excel_serial_roundtrip` at serial 40000 and fraction 1/2. -/
theorem excel_serial_roundtrip_witness :
    maybe_excel_serial ((40000 : ℤ) : ℚ) = some (excelEpoch + 40000) ∧
    (∀ d : ℤ, maybe_excel_serial ((40000 : ℤ) : ℚ) = some d → toSerial d = 40000) ∧
    (∀ f : ℚ, 0 ≤ f → f < 1 →
      maybe_excel_serial (((40000 : ℤ) : ℚ) + f) = maybe_excel_serial ((40000 : ℤ) : ℚ) ∧
      parse_excel_date_num (((40000 : ℤ) : ℚ) + f) = parse_excel_date_num ((40000 : ℤ) : ℚ)) ∧
    (∀ q : ℚ, q ≤ 20000 ∨ 90000 ≤ q → maybe_excel_serial q = none) :=
  excel_serial_roundtrip 40000 (by norm_num) (by norm_num)

end Clarus
